import Mathlib

/-!
# Verification of the yt-downloader-go job pipeline

Shallow embedding of the parts of the yt-downloader-go server that the
checked claims are about: the signed-URL codec (HMAC-SHA256 tokens), the
job metadata store and progress estimator, the chunked downloader with its
retry policy and ordered assembly, the job runner finalization, and the
background reaper.  Go integers are modelled as `Int`/`Nat` (all sizes in
the reachable paths are non-negative), `float64` durations as `Rat` (the
comparisons performed on them are order-exact), filesystem contents as
explicit maps, and time as an explicit parameter.
-/

namespace YtDl

/-! ## Bytes, hex, UTF-8

Byte strings are `List Nat` with every element below 256; 32-bit words are
`Nat` reduced mod 2^32 after each arithmetic step, mirroring Go's `uint32`.
-/

/-- Truncate to 32 bits, the implicit wrap of Go `uint32` arithmetic. -/
def w32 (x : Nat) : Nat := x % 4294967296

/-- 32-bit rotate right. -/
def rotr32 (n x : Nat) : Nat := w32 ((x >>> n) ||| (x <<< (32 - n)))

/-- UTF-8 encoding of one code point (standard 1-4 byte forms). -/
def utf8Char (c : Char) : List Nat :=
  let n := c.toNat
  if n < 128 then [n]
  else if n < 2048 then [192 ||| (n >>> 6), 128 ||| (n &&& 63)]
  else if n < 65536 then
    [224 ||| (n >>> 12), 128 ||| ((n >>> 6) &&& 63), 128 ||| (n &&& 63)]
  else
    [240 ||| (n >>> 18), 128 ||| ((n >>> 12) &&& 63),
     128 ||| ((n >>> 6) &&& 63), 128 ||| (n &&& 63)]

/-- The bytes of a Go string: UTF-8 code units. -/
def utf8Bytes (s : String) : List Nat := (s.data.map utf8Char).flatten

/-- Lower-case hex digit. -/
def hexDigit (n : Nat) : Char := "0123456789abcdef".data.getD n '0'

/-- Lower-case hex of a byte string, two digits per byte
(`hex.EncodeToString`). -/
def bytesToHex (bs : List Nat) : String :=
  String.mk ((bs.map (fun b => [hexDigit (b >>> 4), hexDigit (b &&& 15)])).flatten)

/-- Big-endian byte expansion, `k` bytes. -/
def beBytes (k n : Nat) : List Nat :=
  (List.range k).map (fun i => (n >>> (8 * (k - 1 - i))) &&& 255)

/-! ## SHA-256 (FIPS 180-4) and HMAC (RFC 2104)

A direct functional transcription, needed because the signed-URL tokens the
server mints are `hex(HMAC-SHA256(secret, payload))`.
-/

/-- The 64 SHA-256 round constants of FIPS 180-4, in decimal. -/
def sha256K : Array Nat := #[
  1116352408, 1899447441, 3049323471, 3921009573, 961987163,
  1508970993, 2453635748, 2870763221, 3624381080, 310598401,
  607225278, 1426881987, 1925078388, 2162078206, 2614888103,
  3248222580, 3835390401, 4022224774, 264347078, 604807628,
  770255983, 1249150122, 1555081692, 1996064986, 2554220882,
  2821834349, 2952996808, 3210313671, 3336571891, 3584528711,
  113926993, 338241895, 666307205, 773529912, 1294757372,
  1396182291, 1695183700, 1986661051, 2177026350, 2456956037,
  2730485921, 2820302411, 3259730800, 3345764771, 3516065817,
  3600352804, 4094571909, 275423344, 430227734, 506948616,
  659060556, 883997877, 958139571, 1322822218, 1537002063,
  1747873779, 1955562222, 2024104815, 2227730452, 2361852424,
  2428436474, 2756734187, 3204031479, 3329325298]

/-- SHA-256 working state: eight 32-bit words. -/
structure Sha8 where
  a : Nat
  b : Nat
  c : Nat
  d : Nat
  e : Nat
  f : Nat
  g : Nat
  h : Nat

/-- The SHA-256 initial hash value of FIPS 180-4, in decimal. -/
def sha256Init : Sha8 :=
  ⟨1779033703, 3144134277, 1013904242, 2773480762,
   1359893119, 2600822924, 528734635, 1541459225⟩

def shaCh (x y z : Nat) : Nat := (x &&& y) ^^^ ((x ^^^ 4294967295) &&& z)

def shaMaj (x y z : Nat) : Nat := (x &&& y) ^^^ (x &&& z) ^^^ (y &&& z)

def bigSig0 (x : Nat) : Nat := rotr32 2 x ^^^ rotr32 13 x ^^^ rotr32 22 x

def bigSig1 (x : Nat) : Nat := rotr32 6 x ^^^ rotr32 11 x ^^^ rotr32 25 x

def smallSig0 (x : Nat) : Nat := rotr32 7 x ^^^ rotr32 18 x ^^^ (x >>> 3)

def smallSig1 (x : Nat) : Nat := rotr32 17 x ^^^ rotr32 19 x ^^^ (x >>> 10)

/-- One SHA-256 compression: extend the 16-word block to the 64-word
schedule, run 64 rounds, add into the chaining state. -/
def sha256Compress (st : Sha8) (block : Array Nat) : Sha8 :=
  let w : Array Nat := (List.range 48).foldl
    (fun acc i => acc.push
      (w32 (smallSig1 (acc.getD (i + 14) 0) + acc.getD (i + 9) 0 +
            smallSig0 (acc.getD (i + 1) 0) + acc.getD i 0)))
    block
  let fin : Sha8 := (List.range 64).foldl
    (fun s t =>
      let t1 := w32 (s.h + bigSig1 s.e + shaCh s.e s.f s.g + sha256K.getD t 0 + w.getD t 0)
      let t2 := w32 (bigSig0 s.a + shaMaj s.a s.b s.c)
      ⟨w32 (t1 + t2), s.a, s.b, s.c, w32 (s.d + t1), s.e, s.f, s.g⟩)
    st
  ⟨w32 (st.a + fin.a), w32 (st.b + fin.b), w32 (st.c + fin.c), w32 (st.d + fin.d),
   w32 (st.e + fin.e), w32 (st.f + fin.f), w32 (st.g + fin.g), w32 (st.h + fin.h)⟩

/-- Merkle-Damgård padding: `0x80`, zeros to 56 mod 64, 64-bit big-endian
bit length. -/
def sha256Pad (msg : List Nat) : List Nat :=
  msg ++ 128 :: List.replicate ((119 - msg.length % 64) % 64) 0 ++ beBytes 8 (8 * msg.length)

/-- SHA-256 of a byte string, as its 32 digest bytes. -/
def sha256 (msg : List Nat) : List Nat :=
  let padded := (sha256Pad msg).toArray
  let words : Array Nat := ((List.range (padded.size / 4)).map
    (fun i => (padded.getD (4 * i) 0 <<< 24) ||| (padded.getD (4 * i + 1) 0 <<< 16) |||
              (padded.getD (4 * i + 2) 0 <<< 8) ||| padded.getD (4 * i + 3) 0)).toArray
  let fin := (List.range (words.size / 16)).foldl
    (fun st b =>
      sha256Compress st ((List.range 16).map (fun j => words.getD (16 * b + j) 0)).toArray)
    sha256Init
  ([fin.a, fin.b, fin.c, fin.d, fin.e, fin.f, fin.g, fin.h].map (beBytes 4)).flatten

/-- HMAC-SHA256 over byte strings (`crypto/hmac` with `sha256.New`):
long keys are hashed, short keys zero-padded to the 64-byte block. -/
def hmacSha256 (key msg : List Nat) : List Nat :=
  let key1 := if 64 < key.length then sha256 key else key
  let key0 := key1 ++ List.replicate (64 - key1.length) 0
  sha256 (key0.map (fun b => b ^^^ 92) ++ sha256 (key0.map (fun b => b ^^^ 54) ++ msg))

/-! ## Signed URL codec (`utils/signed_url.go`)

The secret is the startup constant from `config`.  `time.Now().Unix()` is
modelled as an explicit `now : Int` parameter; `expires` is the `int64`
query parameter.  `hmac.Equal` on the byte strings of two hex tokens is
string equality.
-/

/-- `config.SignedURLSecret`. -/
def signedURLSecret : String := "18072001aA@"

/-- Hex HMAC-SHA256 of a payload string under the configured secret. -/
def hmacHex (payload : String) : String :=
  bytesToHex (hmacSha256 (utf8Bytes signedURLSecret) (utf8Bytes payload))

/-- Payload of a file token: `fmt.Sprintf("%s:%s:%d", jobID, filename, expires)`.
Note there is no scope marker in front of `jobID`. -/
def signedTokenData (jobID filename : String) (expires : Int) : String :=
  jobID ++ ":" ++ filename ++ ":" ++ toString expires

/-- `generateToken`: hex HMAC-SHA256 of the file-token payload. -/
def generateToken (jobID filename : String) (expires : Int) : String :=
  hmacHex (signedTokenData jobID filename expires)

/-- Payload of a stream token: `fmt.Sprintf("stream:%s:%d", jobID, expires)`. -/
def streamTokenData (jobID : String) (expires : Int) : String :=
  "stream" ++ ":" ++ jobID ++ ":" ++ toString expires

/-- `generateStreamToken`: hex HMAC-SHA256 of the stream-token payload. -/
def generateStreamToken (jobID : String) (expires : Int) : String :=
  hmacHex (streamTokenData jobID expires)

/-- Modelled from the spec: the status-scope token minted for the signed
status URL.  `GenerateStatusURL`/`ValidateStatusURL` are called from the
handlers but their definitions are not part of the available sources; the
spec gives the token as `HMAC-SHA256(secret, "<scope>:<id>:<expiry>")`,
hex-encoded, with scope `status`. -/
def generateStatusToken (jobID : String) (expires : Int) : String :=
  hmacHex ("status" ++ ":" ++ jobID ++ ":" ++ toString expires)

/-- `ValidateSignedURL`: reject when `now > expires`, else compare the
supplied token against the freshly minted one. -/
def ValidateSignedURL (now : Int) (jobID filename token : String) (expires : Int) : Bool :=
  if now > expires then false
  else token == generateToken jobID filename expires

/-- `ValidateStreamURL`: same check for the stream scope. -/
def ValidateStreamURL (now : Int) (jobID token : String) (expires : Int) : Bool :=
  if now > expires then false
  else token == generateStreamToken jobID expires

/-! ## Data model (`models/types.go`, `config`)

`Duration` and trim times are Go `float64`; they are only ever compared
(never combined arithmetically) on the claim-relevant paths, and `float64`
values order-embed into `ℚ`, so they are modelled as `Rat`.  Byte sizes are
`int64`, modelled as `Int`.
-/

/-- `models.TrimConfig`. -/
structure TrimConfig where
  start : Rat
  stop : Rat
  accurate : Bool
deriving DecidableEq

/-- `models.FileInfo`: per-track raw download descriptor. -/
structure FileInfo where
  name : String
  size : Int
deriving DecidableEq

/-- `models.FilesInfo`: Go nil pointers become `Option`. -/
structure FilesInfo where
  video : Option FileInfo
  audio : Option FileInfo
deriving DecidableEq

/-- `models.Meta`, the per-job metadata document. -/
structure Meta where
  id : String
  status : String
  createdAt : Int
  videoID : String
  title : String
  duration : Rat
  files : FilesInfo
  outputType : String
  format : String
  quality : String
  bitrate : String
  trim : Option TrimConfig
  output : String
  streamOnly : Bool
  error : String
deriving DecidableEq

/-- `models.ProgressDetail`. -/
structure ProgressDetail where
  video : Int
  audio : Int
deriving DecidableEq

/-- `models.StatusPending`. -/
def StatusPending : String := "pending"

/-- `models.StatusCompleted` — the status constant the status handler and
the API document use for a finished job. -/
def StatusCompleted : String := "completed"

/-- `models.StatusError`. -/
def StatusError : String := "error"

/-- `config.StorageDir`. -/
def StorageDir : String := "./storage"

/-- `config.ChunkSize` = 10 MB. -/
def ChunkSize : Nat := 10000000

/-- `config.MaxRetries`. -/
def MaxRetries : Nat := 3

/-- `config.RetryDelay`, in milliseconds. -/
def RetryDelay : Nat := 100

/-- `config.MaxJobAge` (1 hour), in milliseconds to match `createdAt`. -/
def MaxJobAge : Int := 3600000

/-- `config.CleanupBatchSize`. -/
def CleanupBatchSize : Nat := 5000

/-! ## Meta store (`utils/meta.go`)

`ReadMeta`/`WriteMeta` are filesystem round-trips of the single `meta.json`
document; the updater functions read the current document, mutate fields
and write it back.  Since the runner is the only writer, the updaters are
modelled as functions on the current `Meta` value.  `WriteMeta` itself is
modelled by the exact sequence of filesystem operations it performs, which
is what claim C3 is about.
-/

/-- `GetJobDir`: `filepath.Join(config.StorageDir, jobID)`. -/
def GetJobDir (jobID : String) : String := StorageDir ++ "/" ++ jobID

/-- `GetMetaPath`: `filepath.Join(GetJobDir(jobID), "meta.json")`. -/
def GetMetaPath (jobID : String) : String := GetJobDir jobID ++ "/" ++ "meta.json"

/-- One filesystem operation performed by the meta store; the payload of a
write is the document being serialized. -/
inductive MetaFsOp where
  | writeFile (path : String) (doc : Meta)
  | rename (src dst : String)
  | fsync (path : String)
deriving DecidableEq

/-- Whether an operation is a rename. -/
def MetaFsOp.isRename : MetaFsOp → Bool
  | .rename _ _ => true
  | _ => false

/-- The path an operation touches (destination for a rename). -/
def MetaFsOp.target : MetaFsOp → String
  | .writeFile p _ => p
  | .rename _ d => d
  | .fsync p => p

/-- `WriteMeta` as its filesystem trace: `json.MarshalIndent` followed by a
single direct `os.WriteFile(GetMetaPath(jobID), data, 0644)`. -/
def WriteMeta (jobID : String) (meta : Meta) : List MetaFsOp :=
  [.writeFile (GetMetaPath jobID) meta]

/-- Modelled from the spec: the crash-safe write the spec prescribes for
the job store — serialize to a sibling temp file, fsync, rename into
place.  This is the write discipline claim C3 asserts; no function in the
sources implements it. -/
def specAtomicWriteMeta (jobID : String) (meta : Meta) : List MetaFsOp :=
  [.writeFile (GetMetaPath jobID ++ ".tmp") meta,
   .fsync (GetMetaPath jobID ++ ".tmp"),
   .rename (GetMetaPath jobID ++ ".tmp") (GetMetaPath jobID)]

/-- `UpdateMetaError`: `status = "error"`, record the message. -/
def UpdateMetaError (meta : Meta) (errMsg : String) : Meta :=
  { meta with status := "error", error := errMsg }

/-- `UpdateMetaOutput`: `status = "done"`, record the output filename. -/
def UpdateMetaOutput (meta : Meta) (output : String) : Meta :=
  { meta with status := "done", output := output }

/-- `UpdateMetaStreamOnly`: `status = "ready"`, `streamOnly = true`. -/
def UpdateMetaStreamOnly (meta : Meta) : Meta :=
  { meta with status := "ready", streamOnly := true }

/-! ## Binary64 arithmetic (IEEE 754, as Go `float64` computes)

The estimator computes its ratio and its 0.7/0.3 weighting in `float64`.
Every finite binary64 value is an exact dyadic rational `m · 2^e`, so the
model represents a float as such a pair and each operation as exact
rational arithmetic followed by the IEEE round-to-nearest (ties to even)
projection onto 53-bit significands.  All values reached here are zero or
normal (magnitudes between `2^-63` and `2^70`), so the model covers the
normal range and zero; no subnormal, infinity or NaN arises on any input
the estimator can produce from `int64` sizes, and the one division is
guarded (`size > 0`) before it is evaluated.  The rounding was
cross-checked during development against IEEE binary64 results: the 0.7,
0.3 and 0.29 constants bit for bit, `int64 → float64` conversions beyond
2^53, a sample of ratio percentages, and the whole 101×101 grid of
weighted totals (177 of whose values differ from the exact weighted sum,
matching the behaviour of the Go expression).
-/

/-- `⌊log2 n⌋` by halving, fuel-structural so it computes by kernel
reduction (`n` itself is always enough fuel). -/
def floorLog2Go : Nat → Nat → Nat
  | 0, _ => 0
  | fuel + 1, n => if n ≥ 2 then floorLog2Go fuel (n / 2) + 1 else 0

/-- `⌊log2 n⌋` for positive `n` (0 at 0). -/
def floorLog2 (n : Nat) : Nat := floorLog2Go n n

/-- The integer nearest to `n / d` (`d > 0`), ties going to the even
integer — the IEEE rounding of a scaled significand. -/
def rneDiv (n d : Nat) : Nat :=
  let q := n / d
  let r := n % d
  if 2 * r < d then q
  else if 2 * r > d then q + 1
  else if q % 2 == 0 then q else q + 1

/-- Whether `n / d ≥ 2^e` for positive `n, d` and a signed exponent. -/
def ratGePow2 (n d : Nat) (e : Int) : Bool :=
  if e ≥ 0 then d * 2 ^ e.toNat ≤ n else d ≤ n * 2 ^ (-e).toNat

/-- `⌊log2 (n / d)⌋` for positive `n, d`: the candidate from the two
integer logs, corrected by one comparison. -/
def ratFloorLog2 (n d : Nat) : Int :=
  let e0 : Int := (floorLog2 n : Int) - (floorLog2 d : Int)
  if ratGePow2 n d e0 then e0 else e0 - 1

/-- A binary64 value as the exact dyadic rational `m · 2^e` (not kept
normalized; only the value matters). -/
structure Dyadic where
  m : Int
  e : Int
deriving DecidableEq

/-- Round the positive rational `n / d` to the nearest binary64 value
(ties to even, normal range): scale into `[2^52, 2^53)`, round the
significand, undo the scaling in the exponent. -/
def roundPosDyadic (n d : Nat) : Dyadic :=
  let e := ratFloorLog2 n d
  let k := 52 - e
  let m := if k ≥ 0 then rneDiv (n * 2 ^ k.toNat) d else rneDiv n (d * 2 ^ (-k).toNat)
  ⟨(m : Int), e - 52⟩

/-- Round the rational `num / den` (`den > 0`) to the nearest binary64
value (ties to even; zero and the normal range, which covers every value
reached here). -/
def roundRatDyadic (num : Int) (den : Nat) : Dyadic :=
  if num = 0 then ⟨0, 0⟩
  else if 0 < num then roundPosDyadic num.toNat den
  else
    let p := roundPosDyadic (-num).toNat den
    ⟨-p.m, p.e⟩

/-- `float64` multiplication: exact product, rounded. -/
def fmul (a b : Dyadic) : Dyadic :=
  let e := a.e + b.e
  if e ≥ 0 then roundRatDyadic (a.m * b.m * ((2 ^ e.toNat : Nat) : Int)) 1
  else roundRatDyadic (a.m * b.m) (2 ^ (-e).toNat)

/-- `float64` addition: align the exponents, add exactly, round. -/
def fadd (a b : Dyadic) : Dyadic :=
  let e := min a.e b.e
  let sm := a.m * ((2 ^ (a.e - e).toNat : Nat) : Int)
          + b.m * ((2 ^ (b.e - e).toNat : Nat) : Int)
  if e ≥ 0 then roundRatDyadic (sm * ((2 ^ e.toNat : Nat) : Int)) 1
  else roundRatDyadic sm (2 ^ (-e).toNat)

/-- `float64` division: exact quotient as a fraction (the divisor's sign
pushed into the numerator), rounded.  Never called on a zero divisor —
the estimator divides only under its `size > 0` guard. -/
def fdiv (a b : Dyadic) : Dyadic :=
  let e := a.e - b.e
  let num := if e ≥ 0 then a.m * ((2 ^ e.toNat : Nat) : Int) else a.m
  let den := if e ≥ 0 then b.m else b.m * ((2 ^ (-e).toNat : Nat) : Int)
  if 0 ≤ den then roundRatDyadic num den.toNat
  else roundRatDyadic (-num) (-den).toNat

/-- Go's `float64(x)` conversion of an integer: exact below 2^53, rounded
to nearest above. -/
def floatOfInt (x : Int) : Dyadic := roundRatDyadic x 1

/-- Go's `int(x)` conversion of a float: truncation toward zero. -/
def floatTrunc (a : Dyadic) : Int :=
  if a.e ≥ 0 then a.m * ((2 ^ a.e.toNat : Nat) : Int)
  else if 0 ≤ a.m then ((a.m.toNat / 2 ^ (-a.e).toNat : Nat) : Int)
  else -(((-a.m).toNat / 2 ^ (-a.e).toNat : Nat) : Int)

/-- The binary64 value of the Go source literal `0.7`. -/
def float07 : Dyadic := roundRatDyadic 7 10

/-- The binary64 value of the Go source literal `0.3`. -/
def float03 : Dyadic := roundRatDyadic 3 10

/-- The estimator's percentage kernel,
`int(float64(d) / float64(s) * 100)`, computed in binary64. -/
def floatSharePct (d s : Int) : Int :=
  floatTrunc (fmul (fdiv (floatOfInt d) (floatOfInt s)) (floatOfInt 100))

/-- The estimator's weighted total,
`int(float64(dv)*0.7 + float64(da)*0.3)`, computed in binary64. -/
def weightedProgress (dv da : Int) : Int :=
  floatTrunc (fadd (fmul (floatOfInt dv) float07) (fmul (floatOfInt da) float03))

/-! ## Progress estimator (`utils/meta.go`)

The on-disk state the estimator inspects is modelled as a stat map plus a
directory listing.  `os.Stat` is `stat path = some info` on success;
`GetFileSize` collapses a stat failure to size 0, exactly as the Go helper
does.  The `float64` ratio and weighting are the binary64 operations
defined above.
-/

/-- What `os.Stat` reports for one path. -/
structure StatInfo where
  isDir : Bool
  size : Nat
deriving DecidableEq

/-- One entry of `os.ReadDir`. -/
structure DirEntry where
  isDir : Bool
  size : Nat
deriving DecidableEq

/-- The filesystem as the estimator sees it. -/
structure FS where
  stat : String → Option StatInfo
  readDir : String → List DirEntry

/-- `GetFileSize`: size of a path, 0 when `os.Stat` fails. -/
def GetFileSize (fs : FS) (path : String) : Int :=
  match fs.stat path with
  | none => 0
  | some info => (info.size : Int)

/-- Sum of the sizes of the regular-file entries of a directory (the loop
over `os.ReadDir` that skips sub-directories). -/
def chunkDirTotal (entries : List DirEntry) : Int :=
  entries.foldl (fun total e => if e.isDir then total else total + (e.size : Int)) 0

/-- `getDownloadedSize`: final file (non-empty) ⇒ expected size; else a
`.chunks` directory ⇒ sum of its file sizes; else a non-empty `.tmp` ⇒
expected size; else 0. -/
def getDownloadedSize (fs : FS) (jobDir fileName : String) (expectedSize : Int) : Int :=
  let basePath := jobDir ++ "/" ++ fileName
  if GetFileSize fs basePath > 0 then expectedSize
  else
    let chunksDir := basePath ++ ".chunks"
    match fs.stat chunksDir with
    | some info =>
      if info.isDir then chunkDirTotal (fs.readDir chunksDir)
      else if GetFileSize fs (basePath ++ ".tmp") > 0 then expectedSize else 0
    | none =>
      if GetFileSize fs (basePath ++ ".tmp") > 0 then expectedSize else 0

/-- The per-track percentage before clamping: 0 unless the descriptor
advertises a positive size, else `int(float64(downloaded)/float64(size)*100)`
in binary64. -/
def trackPercent (downloaded size : Int) : Int :=
  if size > 0 then floatSharePct downloaded size else 0

/-- `CalculateProgress`: progress and optional per-track detail derived
from the job status and the on-disk byte counts. -/
def CalculateProgress (fs : FS) (meta : Meta) : Int × Option ProgressDetail :=
  if meta.status == "done" || meta.status == "ready" then (100, none)
  else if meta.status == "error" then (0, none)
  else if meta.status == "processing" then (100, none)
  else
    let jobDir := GetJobDir meta.id
    match meta.outputType == "video", meta.files.video, meta.files.audio with
    | true, some v, some a =>
      let videoSize := getDownloadedSize fs jobDir v.name v.size
      let audioSize := getDownloadedSize fs jobDir a.name a.size
      let dv := min (trackPercent videoSize v.size) 100
      let da := min (trackPercent audioSize a.size) 100
      (min (weightedProgress dv da) 100, some ⟨dv, da⟩)
    | _, _, _ =>
      match meta.files.audio with
      | some a =>
        let audioSize := getDownloadedSize fs jobDir a.name a.size
        let da := min (trackPercent audioSize a.size) 100
        (min da 100, some ⟨0, da⟩)
      | none => (0, none)

/-! ### The estimator as the (amended) spec words it

An independent rendering of the claim's description of the on-disk tier
logic, used as the refinement target: per-track downloaded bytes by the
final/chunks/tmp priority (amended: an *empty* `.tmp` counts as 0, which
is what the code does) and the per-track percentage clamped to
`[0, 100]`.  The percentage and weighting arithmetic itself is the
binary64 computation of the code (second amendment: the claim's exact
`0.7·video + 0.3·audio` differs from the code's `float64` value on some
inputs — see the counterexample), so both sides share `floatSharePct` /
`weightedProgress`; the refinement content is the tier selection, the
clamping, the branch dispatch and the status handling. -/

/-- The path stats as an existing, non-empty regular entry. -/
def fileNonEmpty (fs : FS) (path : String) : Bool :=
  match fs.stat path with
  | some info => decide (0 < info.size)
  | none => false

/-- The path stats as an existing directory. -/
def dirExists (fs : FS) (path : String) : Bool :=
  match fs.stat path with
  | some info => info.isDir
  | none => false

/-- Total size of the regular files listed in a directory. -/
def sumFileSizes (fs : FS) (dir : String) : Nat :=
  (((fs.readDir dir).filter (fun e => !e.isDir)).map (fun e => e.size)).sum

/-- Spec description of a track's downloaded byte count: the expected
size `S` once the final file exists non-empty; the bytes accumulated in
`<name>.chunks/` while downloading; `S` once a non-empty `<name>.tmp`
shows assembly is underway; otherwise 0. -/
def specTrackDownloaded (fs : FS) (jobDir name : String) (size : Int) : Int :=
  if fileNonEmpty fs (jobDir ++ "/" ++ name) then size
  else if dirExists fs (jobDir ++ "/" ++ name ++ ".chunks") then
    (sumFileSizes fs (jobDir ++ "/" ++ name ++ ".chunks") : Int)
  else if fileNonEmpty fs (jobDir ++ "/" ++ name ++ ".tmp") then size
  else 0

/-- Spec description of a track's percentage: the binary64 downloaded
share of `S`, clamped to `[0, 100]` (0 when no positive size is
advertised). -/
def specTrackPct (fs : FS) (jobDir name : String) (size : Int) : Int :=
  if size ≤ 0 then 0
  else min 100 (max 0 (floatSharePct (specTrackDownloaded fs jobDir name size) size))

/-! ## Job runner (`handlers/download.go`)

`processJob` runs after the handler wrote the initial `Meta`
(`status = "pending"`, `output = ""`, `streamOnly = false`).  Its effect on
the metadata document is a pure function of the initial document and of
the outcomes of its external steps (the downloads and the ffmpeg
invocations), which are inputs of the model.  Each branch performs exactly
one final update (`UpdateMetaError`, `UpdateMetaStreamOnly` or
`UpdateMetaOutput`) on the current document.
-/

/-- Extension of a filename: `filepath.Ext` with the leading dot stripped,
as `needsAudioTranscode` computes it (track names contain no path
separators). -/
def fileExt (name : String) : String :=
  let parts := name.splitOn "."
  if parts.length ≤ 1 then "" else parts.getLastD ""

/-- `needsAudioTranscode`: conversion needed unless the input extension
equals the target format or is compatible with it
(`m4a`/`mp4` interchangeable, `webm → opus` copied). -/
def needsAudioTranscode (meta : Meta) : Bool :=
  match meta.files.audio with
  | none => false
  | some a =>
    let inputExt := fileExt a.name
    let outputFormat := meta.format
    if inputExt == outputFormat then false
    else if (inputExt == "m4a" || inputExt == "mp4") &&
            (outputFormat == "m4a" || outputFormat == "mp4") then false
    else if inputExt == "webm" && outputFormat == "opus" then false
    else true

/-- `needsTranscode`: video with accurate trim, or audio with a format
conversion. -/
def needsTranscode (meta : Meta) : Bool :=
  if meta.outputType == "video" &&
     (match meta.trim with | some t => t.accurate | none => false) then true
  else if meta.outputType == "audio" then needsAudioTranscode meta
  else false

/-- `shouldMerge`: pre-merge only when the duration is within budget —
15 minutes for transcode-class jobs, 4 hours for remux-class jobs. -/
def shouldMerge (meta : Meta) : Bool :=
  if needsTranscode meta then meta.duration ≤ 900
  else meta.duration ≤ 14400

/-- Outcomes of the external steps of one job, inputs to the runner model:
the parallel downloads and each ffmpeg invocation either succeed or fail
with a message; a successful ffmpeg step yields the output filename. -/
structure JobEnv where
  downloadResult : Option String
  mergeResult : Except String String
  convertResult : Except String String
  trimResult : Except String String

/-- `processJob` after the download phase and up to its final metadata
update: the terminal document the runner writes for the job. -/
def processJob (meta : Meta) (env : JobEnv) : Meta :=
  match env.downloadResult with
  | some e => UpdateMetaError meta ("Download failed: " ++ e)
  | none =>
    if !shouldMerge meta then UpdateMetaStreamOnly meta
    else if meta.outputType == "video" then
      match env.mergeResult with
      | .error e => UpdateMetaError meta ("Processing failed: " ++ e)
      | .ok outputFile =>
        match meta.trim with
        | none => UpdateMetaOutput meta outputFile
        | some _ =>
          match env.trimResult with
          | .error e => UpdateMetaError meta ("Trim failed: " ++ e)
          | .ok trimmed => UpdateMetaOutput meta trimmed
    else
      match env.convertResult with
      | .error e => UpdateMetaError meta ("Conversion failed: " ++ e)
      | .ok outputFile =>
        match meta.trim with
        | none => UpdateMetaOutput meta outputFile
        | some _ =>
          match env.trimResult with
          | .error e => UpdateMetaError meta ("Trim failed: " ++ e)
          | .ok trimmed => UpdateMetaOutput meta trimmed

/-! ## Reaper (`utils/cleanup.go`)

`CleanupOldJobs` walks the `os.ReadDir` listing of the storage root.  An
entry carries what the sweep queries about it: its name, whether it is a
directory, and the result of `ReadMeta` (`none` for a read or parse
failure).  `DeleteJobDir` (`os.RemoveAll`) is modelled as succeeding.  The
sweep returns the surviving entries, in order.
-/

/-- Character class of `config.JobIDRegex`: `[a-zA-Z0-9_-]`. -/
def isJobIDChar (c : Char) : Bool :=
  (('a' ≤ c && c ≤ 'z') || ('A' ≤ c && c ≤ 'Z') || ('0' ≤ c && c ≤ '9') ||
   c == '_' || c == '-')

/-- `ValidateJobID`: the name matches `^[a-zA-Z0-9_-]{21}$`. -/
def ValidateJobID (jobID : String) : Bool :=
  jobID.length == 21 && jobID.data.all isJobIDChar

/-- One entry of the storage-root listing as the sweep sees it. -/
structure JobEntry where
  name : String
  isDir : Bool
  meta : Option Meta
deriving DecidableEq

/-- The sweep loop: skip non-directories; delete invalid names and
unreadable metadata (these do not count toward the batch); delete
directories older than `MaxJobAge`; stop once `CleanupBatchSize` readable
jobs have been processed, leaving the rest untouched. -/
def cleanupGo (now : Int) : List JobEntry → Nat → List JobEntry
  | [], _ => []
  | e :: rest, processed =>
    if !e.isDir then e :: cleanupGo now rest processed
    else if !ValidateJobID e.name then cleanupGo now rest processed
    else
      match e.meta with
      | none => cleanupGo now rest processed
      | some m =>
        let survivors := if now - m.createdAt > MaxJobAge then [] else [e]
        if processed + 1 ≥ CleanupBatchSize then survivors ++ rest
        else survivors ++ cleanupGo now rest (processed + 1)

/-- `CleanupOldJobs` at time `now` (milliseconds): the entries of the
storage root that remain after one sweep. -/
def CleanupOldJobs (now : Int) (entries : List JobEntry) : List JobEntry :=
  cleanupGo now entries 0

/-! ## Chunked downloader: geometry and ordered assembly

Both downloader designs present in the sources split a resource of
`totalSize` bytes into `⌈totalSize / chunkSize⌉` chunks, chunk `i`
covering the inclusive byte range `[i·cs, min(i·cs + cs − 1, totalSize − 1)]`,
and assemble them by reading index 0, 1, … in order and appending
(`mergeChunks` over the per-chunk files, and the writer goroutine over the
per-chunk channels).  The upstream resource is a byte list; a successful
range GET for `[s, e]` returns exactly those bytes.  The chunk size is a
parameter, instantiated at `config.ChunkSize` by the server.
-/

/-- `numChunks`: `(totalSize + chunkSize - 1) / chunkSize`. -/
def numChunks (totalSize cs : Nat) : Nat := (totalSize + cs - 1) / cs

/-- Upper byte offset of chunk `i`: `start + cs - 1`, clipped to
`totalSize - 1`. -/
def chunkEnd (totalSize cs i : Nat) : Nat := min (i * cs + cs - 1) (totalSize - 1)

/-- Bytes a range GET `[s, e]` (inclusive) returns from the resource. -/
def rangeBytes (data : List Nat) (s e : Nat) : List Nat :=
  (data.drop s).take (e - s + 1)

/-- The body chunk `i` holds after a successful download. -/
def chunkBody (data : List Nat) (cs i : Nat) : List Nat :=
  rangeBytes data (i * cs) (chunkEnd data.length cs i)

/-- The assembly loop of `mergeChunks`: open `chunk_0 … chunk_{n-1}` in
index order and append each body to the destination. -/
def mergeChunks (chunks : Nat → List Nat) (n : Nat) : List Nat :=
  ((List.range n).map chunks).flatten

/-- The writer goroutine of the in-memory design: drain slots
`results[0] … results[n-1]` in index order, appending each body. -/
def chunkWriterLoop (results : Nat → List Nat) (n : Nat) : List Nat :=
  ((List.range n).map results).flatten

/-! ## Chunked downloader: retry policy

`downloadChunkWithRetry` (chunk-file design) and the inline retry loop of
the in-memory design are driven by the outcome of each attempt, an input
of the model (`seq k` is what attempt number `k` at this chunk does).
Both loops make at most `config.MaxRetries` attempts, sleep
`RetryDelay · (retry + 1)` before re-attempting, and treat an HTTP 403
from `fetchRange` as terminal.  The trace records the number of attempts
made, the sleeps in order, and the surfaced error (`none` = success).
-/

/-- Outcome of one attempt in the chunk-file design. -/
inductive FetchOutcome where
  | ok
  | httpError (status : Nat)
  | transportError
  | bodyError
  | renameError
deriving DecidableEq

/-- Outcome of one attempt in the in-memory design (no per-chunk file, so
no body/rename step inside the loop). -/
inductive FetchResult where
  | ok
  | httpError (status : Nat)
  | transportError
deriving DecidableEq

/-- The error a failed attempt surfaces. -/
inductive ChunkErr where
  | http (status : Nat)
  | transport
  | body
  | rename
deriving DecidableEq

/-- Execution trace of one chunk's retry loop. -/
structure RetryTrace where
  attempts : Nat
  sleeps : List Nat
  err : Option ChunkErr
deriving DecidableEq

/-- The retry loop of `downloadChunkWithRetry`: on a fetch error, return
at once if it is HTTP 403, otherwise record it, sleep
`RetryDelay·(retry+1)` and continue; on a body-write error, likewise
sleep and continue; on success, rename the temp chunk (surfacing a rename
failure); after `MaxRetries` failed attempts, surface the last error. -/
def chunkRetryGo (seq : Nat → FetchOutcome) :
    Nat → Nat → List Nat → Option ChunkErr → RetryTrace
  | 0, retry, sleeps, lastErr => ⟨retry, sleeps, lastErr⟩
  | remaining + 1, retry, sleeps, _ =>
    match seq retry with
    | .ok => ⟨retry + 1, sleeps, none⟩
    | .renameError => ⟨retry + 1, sleeps, some .rename⟩
    | .httpError s =>
      if s == 403 then ⟨retry + 1, sleeps, some (.http s)⟩
      else chunkRetryGo seq remaining (retry + 1)
        (sleeps ++ [RetryDelay * (retry + 1)]) (some (.http s))
    | .transportError => chunkRetryGo seq remaining (retry + 1)
        (sleeps ++ [RetryDelay * (retry + 1)]) (some .transport)
    | .bodyError => chunkRetryGo seq remaining (retry + 1)
        (sleeps ++ [RetryDelay * (retry + 1)]) (some .body)

/-- `downloadChunkWithRetry` for one chunk, as its execution trace. -/
def downloadChunkWithRetry (seq : Nat → FetchOutcome) : RetryTrace :=
  chunkRetryGo seq MaxRetries 0 [] none

/-- The inline retry loop of the in-memory worker: break on success or on
HTTP 403; otherwise record the error and sleep `RetryDelay·(retry+1)`
unless this was the last attempt (`retry < MaxRetries-1` guards the
sleep); surface the error left after the loop. -/
def memRetryGo (seq : Nat → FetchResult) :
    Nat → Nat → List Nat → Option ChunkErr → RetryTrace
  | 0, retry, sleeps, lastErr => ⟨retry, sleeps, lastErr⟩
  | remaining + 1, retry, sleeps, _ =>
    match seq retry with
    | .ok => ⟨retry + 1, sleeps, none⟩
    | .httpError s =>
      if s == 403 then ⟨retry + 1, sleeps, some (.http s)⟩
      else if remaining == 0 then ⟨retry + 1, sleeps, some (.http s)⟩
      else memRetryGo seq remaining (retry + 1)
        (sleeps ++ [RetryDelay * (retry + 1)]) (some (.http s))
    | .transportError =>
      if remaining == 0 then ⟨retry + 1, sleeps, some .transport⟩
      else memRetryGo seq remaining (retry + 1)
        (sleeps ++ [RetryDelay * (retry + 1)]) (some .transport)

/-- The in-memory worker's per-chunk retry loop, as its trace. -/
def memChunkRetry (seq : Nat → FetchResult) : RetryTrace :=
  memRetryGo seq MaxRetries 0 [] none

/-- An attempt outcome the chunk-file loop retries after. -/
def retriableOutcome : FetchOutcome → Bool
  | .httpError s => s != 403
  | .transportError => true
  | .bodyError => true
  | _ => false

/-- An attempt outcome the in-memory loop retries after. -/
def retriableResult : FetchResult → Bool
  | .httpError s => s != 403
  | .transportError => true
  | _ => false

/-- The error recorded for a failed attempt (chunk-file design). -/
def errOfOutcome : FetchOutcome → Option ChunkErr
  | .httpError s => some (.http s)
  | .transportError => some .transport
  | .bodyError => some .body
  | .renameError => some .rename
  | .ok => none

/-- The error recorded for a failed attempt (in-memory design). -/
def errOfResult : FetchResult → Option ChunkErr
  | .httpError s => some (.http s)
  | .transportError => some .transport
  | .ok => none

/-! ## Chunked downloader: on-disk end states

For the either-nothing-or-complete contract the model tracks which of the
three artifacts of `download` exist when it returns: `destPath`, the
sibling `destPath.tmp`, and the `destPath.chunks` directory.  The inputs
are whether the worker pool reported an error, which chunk files the
assembly loop can read and copy, and whether the final rename succeeds
(`os.Create` of the temp file is taken to succeed).
-/

/-- Presence of the downloader's three artifacts. -/
structure DLState where
  dest : Bool
  tmp : Bool
  chunksDir : Bool
deriving DecidableEq

/-- `mergeChunks` effect on disk: create `destPath.tmp`, copy the chunk
files in order — returning with the temp file in place if any open/copy
fails — then rename it over `destPath`, removing it if the rename
fails. -/
def mergeChunksDisk (n : Nat) (chunkOk : Nat → Bool) (renameOk : Bool)
    (st : DLState) : DLState × Bool :=
  let st1 := { st with tmp := true }
  if (List.range n).all chunkOk then
    if renameOk then ({ st1 with tmp := false, dest := true }, true)
    else ({ st1 with tmp := false }, false)
  else (st1, false)

/-- `downloadChunked` (chunk-file design) end state: make the chunks
directory; on any worker error remove it and fail; otherwise assemble and
remove the chunks directory whether or not the assembly succeeded. -/
def downloadChunked (workersOk : Bool) (n : Nat) (chunkOk : Nat → Bool)
    (renameOk : Bool) : DLState × Bool :=
  let st0 : DLState := ⟨false, false, true⟩
  if !workersOk then ({ st0 with chunksDir := false }, false)
  else
    let res := mergeChunksDisk n chunkOk renameOk st0
    ({ res.1 with chunksDir := false }, res.2)

/-- `downloadSingle` end state: fetch the body, write it to
`destPath.tmp` (a failed `os.WriteFile` may leave a partial temp file,
which is not removed), rename into place. -/
def downloadSingle (fetchOk writeOk renameOk : Bool) : DLState × Bool :=
  if !fetchOk then (⟨false, false, false⟩, false)
  else if !writeOk then (⟨false, true, false⟩, false)
  else if !renameOk then (⟨false, true, false⟩, false)
  else (⟨true, false, false⟩, true)

/-! ## Concrete jobs and filesystems used as test inputs -/

/-- A short video job as the handler creates it: both descriptors set,
well within the 4-hour remux budget, no trim. -/
def metaVideoJob : Meta :=
  ⟨"V1StGXR8Z5jdHi9abcdef", "pending", 1730000000000, "dQw4w9WgXcQ", "t", 60,
   ⟨some ⟨"video.mp4", 5000⟩, some ⟨"audio.m4a", 1000⟩⟩,
   "video", "mp4", "1080p", "192k", none, "", false, ""⟩

/-- A long remux-class video job: duration 20000 s exceeds the 4-hour
budget, so the runner takes the stream-only path. -/
def metaLongJob : Meta :=
  ⟨"V1StGXR8Z5jdHi9abcdeg", "pending", 1730000000000, "dQw4w9WgXcQ", "t", 20000,
   ⟨some ⟨"video.mp4", 5000⟩, some ⟨"audio.m4a", 1000⟩⟩,
   "video", "mp4", "1080p", "192k", none, "", false, ""⟩

/-- An environment in which every external step succeeds. -/
def envAllOk : JobEnv := ⟨none, .ok "output.mp4", .ok "output.mp4", .ok "output.mp4"⟩

/-- A pending audio-only job whose track descriptor advertises 100
bytes. -/
def metaAudioPending : Meta :=
  ⟨"jobA", "pending", 1730000000000, "dQw4w9WgXcQ", "t", 60,
   ⟨none, some ⟨"audio.m4a", 100⟩⟩,
   "audio", "mp3", "", "192k", none, "", false, ""⟩

/-- A filesystem holding only an empty `audio.m4a.tmp` for `metaAudioPending`:
the download finished and assembly created the temp file but wrote
nothing yet. -/
def fsTmpEmpty : FS :=
  ⟨fun p => if p = "./storage/jobA/audio.m4a.tmp" then some ⟨false, 0⟩ else none,
   fun _ => []⟩

/-- A pending job marked `video` whose video descriptor is missing while
the audio descriptor is present. -/
def metaVideoNoVideoDesc : Meta :=
  ⟨"jobB", "pending", 1730000000000, "dQw4w9WgXcQ", "t", 60,
   ⟨none, some ⟨"audio.m4a", 100⟩⟩,
   "video", "mp4", "1080p", "192k", none, "", false, ""⟩

/-- A filesystem where that job's audio track is fully downloaded. -/
def fsAudioDone : FS :=
  ⟨fun p => if p = "./storage/jobB/audio.m4a" then some ⟨false, 100⟩ else none,
   fun _ => []⟩

/-- An audio job whose pipeline already finished (`status = "done"`). -/
def metaDoneJob : Meta :=
  ⟨"jobC", "done", 1730000000000, "dQw4w9WgXcQ", "t", 60,
   ⟨none, some ⟨"audio.m4a", 100⟩⟩,
   "audio", "mp3", "", "192k", none, "output.mp3", false, ""⟩

/-- A pending video job with no track descriptors at all. -/
def metaNoFiles : Meta :=
  ⟨"jobD", "pending", 1730000000000, "dQw4w9WgXcQ", "t", 60,
   ⟨none, none⟩,
   "video", "mp4", "1080p", "192k", none, "", false, ""⟩

/-- A pending video job whose two 100-byte tracks are being downloaded. -/
def metaVideoPending3 : Meta :=
  ⟨"jobE", "pending", 1730000000000, "dQw4w9WgXcQ", "t", 60,
   ⟨some ⟨"video.mp4", 100⟩, some ⟨"audio.m4a", 100⟩⟩,
   "video", "mp4", "1080p", "192k", none, "", false, ""⟩

/-- A filesystem where each of that job's tracks has one 3-byte chunk
file in its `.chunks` directory: both tracks are 3% downloaded. -/
def fsChunks3 : FS :=
  ⟨fun p =>
     if p = "./storage/jobE/video.mp4.chunks" then some ⟨true, 0⟩
     else if p = "./storage/jobE/audio.m4a.chunks" then some ⟨true, 0⟩
     else none,
   fun p =>
     if p = "./storage/jobE/video.mp4.chunks" then [⟨false, 3⟩]
     else if p = "./storage/jobE/audio.m4a.chunks" then [⟨false, 3⟩]
     else []⟩

/-- A non-directory entry in the storage root. -/
def entFile : JobEntry := ⟨"junk.txt", false, none⟩

/-- A directory whose name is not a 21-character job id. -/
def entBadName : JobEntry := ⟨"short", true, some metaAudioPending⟩

/-- A directory with a valid name but unreadable metadata. -/
def entCorrupt : JobEntry := ⟨"CCCCCCCCCCCCCCCCCCCCC", true, none⟩

/-- Metadata of a job created at epoch millisecond 0 — ancient. -/
def metaOldJob : Meta :=
  ⟨"BBBBBBBBBBBBBBBBBBBBB", "pending", 0, "dQw4w9WgXcQ", "t", 60,
   ⟨none, some ⟨"audio.m4a", 100⟩⟩, "audio", "mp3", "", "192k", none, "", false, ""⟩

/-- Metadata of a job created 1000 ms before the sweep time used below. -/
def metaFreshJob : Meta :=
  ⟨"AAAAAAAAAAAAAAAAAAAAA", "pending", 1729999999000, "dQw4w9WgXcQ", "t", 60,
   ⟨none, some ⟨"audio.m4a", 100⟩⟩, "audio", "mp3", "", "192k", none, "", false, ""⟩

/-- A directory holding the ancient job. -/
def entOld : JobEntry := ⟨"BBBBBBBBBBBBBBBBBBBBB", true, some metaOldJob⟩

/-- A directory holding the fresh job. -/
def entFresh : JobEntry := ⟨"AAAAAAAAAAAAAAAAAAAAA", true, some metaFreshJob⟩

/-- The storage-root listing the reaper witness sweeps. -/
def sweepEntries : List JobEntry := [entFile, entBadName, entCorrupt, entOld, entFresh]

/-- An entry the sweep counts toward the batch: a directory with a valid
name and readable metadata. -/
def readableJob (e : JobEntry) : Bool :=
  e.isDir && ValidateJobID e.name && e.meta.isSome

/-! # Theorems -/

/-- **C1.** The claim: for every job whose background pipeline finishes
successfully, the runner's final Meta update sets `status` to `completed`,
with exactly one of `output` set (merge path) or `streamOnly` true
(stream-only path).  The exactly-one-of part holds, but the runner never
writes the status `completed` that `models.StatusCompleted`, the status
handler, and the API document use: the merge path writes `"done"` and the
stream-only path writes `"ready"`, evaluated here on a fully successful
short video job and a fully successful long (stream-only) video job. -/
theorem processJob_writes_done_and_ready_not_completed :
    (processJob metaVideoJob envAllOk).status = "done"
    ∧ (processJob metaVideoJob envAllOk).output = "output.mp4"
    ∧ (processJob metaVideoJob envAllOk).streamOnly = false
    ∧ (processJob metaLongJob envAllOk).status = "ready"
    ∧ (processJob metaLongJob envAllOk).output = ""
    ∧ (processJob metaLongJob envAllOk).streamOnly = true
    ∧ (processJob metaVideoJob envAllOk).status ≠ StatusCompleted
    ∧ (processJob metaLongJob envAllOk).status ≠ StatusCompleted := by
  decide

/-- **C2.** `ValidateSignedURL` (and `ValidateStreamURL` for the stream
scope) returns true iff the current time is at most `expires` and the
supplied token equals the freshly minted hex HMAC-SHA256 token over the
same identifiers and expiry; in particular a valid token verifies at any
`now ≤ expires` and everything is rejected when `now > expires`. -/
theorem validate_signedURL_iff_token_and_unexpired :
    ∀ (jobID filename token : String) (expires now : Int),
      (ValidateSignedURL now jobID filename token expires = true ↔
        now ≤ expires ∧ token = generateToken jobID filename expires)
    ∧ (ValidateStreamURL now jobID token expires = true ↔
        now ≤ expires ∧ token = generateStreamToken jobID expires)
    ∧ (now ≤ expires →
        ValidateSignedURL now jobID filename (generateToken jobID filename expires) expires = true)
    ∧ (now ≤ expires →
        ValidateStreamURL now jobID (generateStreamToken jobID expires) expires = true)
    ∧ (expires < now → ValidateSignedURL now jobID filename token expires = false)
    ∧ (expires < now → ValidateStreamURL now jobID token expires = false) := by
  intro jid fn tok e now
  by_cases h : now > e
  · have hne : ¬ now ≤ e := by omega
    refine ⟨?_, ?_, ?_, ?_, ?_, ?_⟩ <;>
      simp [ValidateSignedURL, ValidateStreamURL, h, hne]
  · have hle : now ≤ e := by omega
    refine ⟨?_, ?_, ?_, ?_, ?_, ?_⟩
    · simp [ValidateSignedURL, h, hle]
    · simp [ValidateStreamURL, h, hle]
    · intro _; simp [ValidateSignedURL, h]
    · intro _; simp [ValidateStreamURL, h]
    · intro hlt; omega
    · intro hlt; omega

/-- Witness for C2: at `now = 5` a token minted for expiry 10 verifies,
and at `now = 11` an expired check is rejected. -/
theorem validate_signedURL_iff_token_and_unexpired_witness :
    ValidateSignedURL 5 "job" "file.mp4" (generateToken "job" "file.mp4" 10) 10 = true
    ∧ ValidateStreamURL 11 "job" "anytoken" 10 = false :=
  ⟨(validate_signedURL_iff_token_and_unexpired "job" "file.mp4"
      (generateToken "job" "file.mp4" 10) 10 5).2.2.1 (by decide),
   (validate_signedURL_iff_token_and_unexpired "job" "anytoken" "anytoken" 10 11).2.2.2.2.2
      (by decide)⟩

/-- **C3, counterexample.** The claim says `Meta` writes serialize to a
sibling temp file and atomically rename it into place.  On a concrete
document, the filesystem trace of `WriteMeta` is a single direct
`os.WriteFile` of the live `meta.json` path: it contains no rename at
all, and differs from the spec's atomic write discipline. -/
theorem writeMeta_trace_has_no_rename :
    (WriteMeta "jobA" metaAudioPending).all (fun op => !op.isRename) = true
    ∧ WriteMeta "jobA" metaAudioPending ≠ specAtomicWriteMeta "jobA" metaAudioPending
    ∧ (WriteMeta "jobA" metaAudioPending).map MetaFsOp.target = ["./storage/jobA/meta.json"] := by
  decide

/-- **C3, amended.** `WriteMeta` serializes the document and writes it
directly to `meta.json` in one `os.WriteFile` call: its trace is a single
write of the live path, with no temp file, no fsync and no rename, and so
it never coincides with the three-step atomic discipline the spec
prescribes (whose trace ends in a rename). -/
theorem writeMeta_is_single_direct_write :
    ∀ (jobID : String) (meta : Meta),
      WriteMeta jobID meta = [MetaFsOp.writeFile (GetMetaPath jobID) meta]
      ∧ (WriteMeta jobID meta).all (fun op => !op.isRename) = true
      ∧ (WriteMeta jobID meta).length = 1
      ∧ (specAtomicWriteMeta jobID meta).length = 3
      ∧ ((specAtomicWriteMeta jobID meta).getLastD (.fsync "")).isRename = true := by
  intro jobID meta
  exact ⟨rfl, rfl, rfl, rfl, rfl⟩

/-- **C8, counterexample.** The claim says every token's HMAC payload
begins with its scope name, so tokens never verify across scopes.  The
file-scope payload is `jobID:filename:expires` with no scope marker, and
the two minting functions collide on crafted inputs: the file token for
jobID `"stream"` and filename `"output.mp4"` is exactly the stream token
for jobID `"output.mp4"` at the same expiry. -/
theorem filesToken_equals_streamToken_at_crafted_input :
    generateToken "stream" "output.mp4" 1730000000 =
      generateStreamToken "output.mp4" 1730000000 := rfl

/-- **C8, amended.** The stream token payload (and the spec-modelled
status token payload) begins with its scope name, but the file token
payload is `jobID:filename:expires` with no scope marker; consequently
scope binding fails between the files and stream scopes: for every
filename and expiry, the file token minted for jobID `"stream"` equals
the stream token for that filename. -/
theorem streamToken_scoped_but_filesToken_unscoped :
    ∀ (jobID filename : String) (expires : Int),
      streamTokenData jobID expires = "stream:" ++ jobID ++ ":" ++ toString expires
      ∧ signedTokenData jobID filename expires =
          jobID ++ ":" ++ filename ++ ":" ++ toString expires
      ∧ generateStatusToken jobID expires =
          hmacHex ("status:" ++ jobID ++ ":" ++ toString expires)
      ∧ generateToken "stream" filename expires = generateStreamToken filename expires := by
  intro jid fn e
  refine ⟨?_, rfl, ?_, rfl⟩
  · show ("stream" ++ ":") ++ jid ++ ":" ++ toString e = "stream:" ++ jid ++ ":" ++ toString e
    rfl
  · show hmacHex (("status" ++ ":") ++ jid ++ ":" ++ toString e) = _
    rfl

/-- **C6, counterexample.** The claim says that on failure the chunks
directory is removed *and* `destPath.tmp`, if created, is removed.  When
the workers all succeed but the assembly loop fails to read a chunk file
(here chunk 1 of 2), `downloadChunked` removes the chunks directory and
surfaces the error — but the `destPath.tmp` the merge created stays
behind. -/
theorem downloadChunked_merge_failure_leaves_tmp :
    downloadChunked true 2 (fun i => i == 0) true = (⟨false, true, false⟩, false) := by
  decide

/-- **C6, amended.** On success a complete file exists at `destPath` with
no temp file and no chunks directory; on failure no `destPath` exists and
the chunks directory has been removed, and `destPath.tmp` is also gone on
a worker failure or a failure of the final rename — but it survives when
assembling the chunk files fails before the rename.  The single-request
path likewise leaves a complete `destPath` exactly on success and never a
partial `destPath`. -/
theorem download_failure_cleanup_states :
    ∀ (workersOk : Bool) (n : Nat) (chunkOk : Nat → Bool) (renameOk : Bool)
      (fetchOk writeOk singleRenameOk : Bool),
      ((downloadChunked workersOk n chunkOk renameOk).2 = true →
        (downloadChunked workersOk n chunkOk renameOk).1 = ⟨true, false, false⟩)
    ∧ ((downloadChunked workersOk n chunkOk renameOk).2 = false →
        (downloadChunked workersOk n chunkOk renameOk).1.dest = false
        ∧ (downloadChunked workersOk n chunkOk renameOk).1.chunksDir = false)
    ∧ (workersOk = false →
        downloadChunked workersOk n chunkOk renameOk = (⟨false, false, false⟩, false))
    ∧ (workersOk = true → (List.range n).all chunkOk = true → renameOk = false →
        downloadChunked workersOk n chunkOk renameOk = (⟨false, false, false⟩, false))
    ∧ (workersOk = true → (List.range n).all chunkOk = false →
        downloadChunked workersOk n chunkOk renameOk = (⟨false, true, false⟩, false))
    ∧ ((downloadSingle fetchOk writeOk singleRenameOk).2 = true →
        (downloadSingle fetchOk writeOk singleRenameOk).1 = ⟨true, false, false⟩)
    ∧ ((downloadSingle fetchOk writeOk singleRenameOk).2 = false →
        (downloadSingle fetchOk writeOk singleRenameOk).1.dest = false) := by
  intro w n cOk r f wk rn
  cases w <;> cases r <;> cases f <;> cases wk <;> cases rn <;>
    cases hall : (List.range n).all cOk <;>
      simp [downloadChunked, mergeChunksDisk, downloadSingle, hall]

/-- Witness for C6: on a fully successful two-chunk download only the
complete destination file exists, and on a worker failure nothing
exists. -/
theorem download_failure_cleanup_states_witness :
    downloadChunked true 2 (fun _ => true) true = (⟨true, false, false⟩, true)
    ∧ downloadChunked false 2 (fun _ => true) true = (⟨false, false, false⟩, false) :=
  ⟨by
    have h := (download_failure_cleanup_states true 2 (fun _ => true) true true true true).1
    have hok : (downloadChunked true 2 (fun _ => true) true).2 = true := by decide
    have h1 := h hok
    exact Prod.ext h1 hok,
   (download_failure_cleanup_states false 2 (fun _ => true) true true true true).2.2.1 rfl⟩

/-- The sweep never removes a non-directory entry. -/
theorem cleanupGo_keeps_nondir (now : Int) :
    ∀ (entries : List JobEntry) (p : Nat) (e : JobEntry),
      e ∈ entries → e.isDir = false → e ∈ cleanupGo now entries p := by
  intro entries
  induction entries with
  | nil => intro p e he; simp at he
  | cons hd tl ih =>
    intro p e he hnd
    rcases List.mem_cons.mp he with rfl | htl
    · simp [cleanupGo, hnd]
    · simp only [cleanupGo]
      split
      · exact List.mem_cons_of_mem _ (ih p e htl hnd)
      · split
        · exact ih p e htl hnd
        · rcases hm : hd.meta with _ | m
          · simp only [hm]
            exact ih p e htl hnd
          · simp only [hm]
            split
            · exact List.mem_append_right _ htl
            · exact List.mem_append_right _ (ih (p + 1) e htl hnd)

/-- Everything surviving the sweep was in the original listing. -/
theorem cleanupGo_subset (now : Int) :
    ∀ (entries : List JobEntry) (p : Nat) (e : JobEntry),
      e ∈ cleanupGo now entries p → e ∈ entries := by
  intro entries
  induction entries with
  | nil => intro p e he; simp [cleanupGo] at he
  | cons hd tl ih =>
    intro p e he
    simp only [cleanupGo] at he
    split at he
    · rcases List.mem_cons.mp he with rfl | htl
      · exact List.mem_cons_self _ _
      · exact List.mem_cons_of_mem _ (ih p e htl)
    · split at he
      · exact List.mem_cons_of_mem _ (ih p e he)
      · rcases hm : hd.meta with _ | m
        · simp only [hm] at he
          exact List.mem_cons_of_mem _ (ih p e he)
        · simp only [hm] at he
          split at he
          · rcases List.mem_append.mp he with hs | htl
            · split at hs
              · simp at hs
              · rcases List.mem_singleton.mp hs with rfl
                exact List.mem_cons_self _ _
            · exact List.mem_cons_of_mem _ htl
          · rcases List.mem_append.mp he with hs | hrec
            · split at hs
              · simp at hs
              · rcases List.mem_singleton.mp hs with rfl
                exact List.mem_cons_self _ _
            · exact List.mem_cons_of_mem _ (ih (p + 1) e hrec)

/-- Below the batch cap, every directory surviving the sweep has a valid
job id, readable metadata, and is at most `MaxJobAge` old. -/
theorem cleanupGo_good (now : Int) :
    ∀ (entries : List JobEntry) (p : Nat),
      p + entries.countP (fun e => readableJob e) < CleanupBatchSize →
      ∀ e ∈ cleanupGo now entries p, e.isDir = true →
        ValidateJobID e.name = true
        ∧ ∃ m, e.meta = some m ∧ now - m.createdAt ≤ MaxJobAge := by
  intro entries
  induction entries with
  | nil => intro p _ e he; simp [cleanupGo] at he
  | cons hd tl ih =>
    intro p hcount e he hdir
    simp only [cleanupGo] at he
    revert he
    split
    · -- hd is not a directory
      rename_i hnd
      intro he
      rcases List.mem_cons.mp he with rfl | htl
      · simp at hnd; simp [hnd] at hdir
      · refine ih p ?_ e htl hdir
        have : readableJob hd = false := by
          simp only [readableJob]
          simp at hnd
          simp [hnd]
        simpa [List.countP_cons, this] using hcount
    · split
      · -- invalid job id: deleted, does not count
        rename_i hnd hinv
        intro he
        refine ih p ?_ e he hdir
        have : readableJob hd = false := by
          simp only [readableJob]
          simp at hinv
          simp [hinv]
        simpa [List.countP_cons, this] using hcount
      · rcases hm : hd.meta with _ | m
        · -- unreadable metadata: deleted, does not count
          simp only [hm]
          intro he
          refine ih p ?_ e he hdir
          have : readableJob hd = false := by simp [readableJob, hm]
          simpa [List.countP_cons, this] using hcount
        · -- readable job: counts toward the batch
          simp only [hm]
          rename_i hnd hinv
          have hread : readableJob hd = true := by
            simp at hnd hinv
            simp [readableJob, hm, hnd, hinv]
          have hcount2 : p + 1 + tl.countP (fun e => readableJob e) < CleanupBatchSize := by
            have := hcount
            simp [List.countP_cons, hread] at this
            omega
          have hnobreak : ¬ p + 1 ≥ CleanupBatchSize := by omega
          simp only [if_neg hnobreak]
          intro he
          rcases List.mem_append.mp he with hs | hrec
          · revert hs
            split
            · intro hs; simp at hs
            · rename_i hyoung
              intro hs
              rcases List.mem_singleton.mp hs with rfl
              simp at hnd hinv
              exact ⟨hinv, m, hm, by omega⟩
          · exact ih (p + 1) hcount2 e hrec hdir

/-- **C9.** After one reaper sweep at time `now`: non-directory entries
are never touched (they all survive and nothing new appears), and — as
long as the batch cap is not reached — no surviving directory has an
invalid job id, unreadable metadata, or a `createdAt` more than
`MaxJobAge` (1 hour) old. -/
theorem cleanup_sweep_removes_all_bad_dirs :
    ∀ (now : Int) (entries : List JobEntry),
      (∀ e ∈ entries, e.isDir = false → e ∈ CleanupOldJobs now entries)
    ∧ (∀ e ∈ CleanupOldJobs now entries, e ∈ entries)
    ∧ (entries.countP (fun e => readableJob e) < CleanupBatchSize →
        ∀ e ∈ CleanupOldJobs now entries, e.isDir = true →
          ValidateJobID e.name = true
          ∧ ∃ m, e.meta = some m ∧ now - m.createdAt ≤ MaxJobAge) := by
  intro now entries
  refine ⟨fun e he hnd => cleanupGo_keeps_nondir now entries 0 e he hnd,
          fun e he => cleanupGo_subset now entries 0 e he,
          fun hcount e he hdir => cleanupGo_good now entries 0 (by omega) e he hdir⟩

/-- Witness for C9: sweeping a five-entry listing — a plain file, a
badly named directory, a corrupt directory, an hour-old directory and a
fresh directory — at time 1730000000000 ms keeps exactly the plain file
and the fresh directory, and the theorem's guarantees hold there. -/
theorem cleanup_sweep_removes_all_bad_dirs_witness :
    CleanupOldJobs 1730000000000 sweepEntries = [entFile, entFresh]
    ∧ entFile ∈ CleanupOldJobs 1730000000000 sweepEntries
    ∧ (ValidateJobID entFresh.name = true
       ∧ ∃ m, entFresh.meta = some m ∧ 1730000000000 - m.createdAt ≤ MaxJobAge) := by
  refine ⟨by decide, ?_, ?_⟩
  · exact (cleanup_sweep_removes_all_bad_dirs 1730000000000 sweepEntries).1 entFile
      (by decide) (by decide)
  · exact (cleanup_sweep_removes_all_bad_dirs 1730000000000 sweepEntries).2.2
      (by decide) entFresh (by decide) (by decide)

/-- Concatenating the `cs`-sized slices of `l` in index order `0..n-1`
reassembles `l`, provided `n` slices cover it. -/
theorem flatten_ordered_slices (cs : Nat) (_hcs : 0 < cs) :
    ∀ (n : Nat) (l : List Nat), l.length ≤ n * cs →
      ((List.range n).map (fun i => (l.drop (i * cs)).take cs)).flatten = l := by
  intro n
  induction n with
  | zero =>
    intro l hl
    have hz : l = [] := List.eq_nil_of_length_eq_zero (by omega)
    subst hz; rfl
  | succ n ih =>
    intro l hl
    rw [List.range_succ_eq_map, List.map_cons, List.map_map]
    have hcomp : (List.range n).map ((fun i => (l.drop (i * cs)).take cs) ∘ Nat.succ)
        = (List.range n).map (fun i => ((l.drop cs).drop (i * cs)).take cs) := by
      apply List.map_congr_left
      intro i _
      have : (l.drop cs).drop (i * cs) = l.drop (Nat.succ i * cs) := by
        rw [List.drop_drop]
        congr 1
        rw [Nat.succ_mul]
        omega
      simp [Function.comp, this]
    rw [hcomp, List.flatten_cons]
    have hlen : (l.drop cs).length ≤ n * cs := by
      rw [List.length_drop]
      have : (n + 1) * cs = n * cs + cs := by ring
      omega
    rw [ih (l.drop cs) hlen]
    simp [List.take_append_drop]

/-- Every chunk index of a download covers bytes strictly inside the
resource. -/
theorem chunk_start_lt_length (cs i L : Nat) (hcs : 0 < cs)
    (hi : i < numChunks L cs) : i * cs < L := by
  have h1 : (i + 1) * cs ≤ numChunks L cs * cs :=
    Nat.mul_le_mul_right cs (by omega)
  have h2 : numChunks L cs * cs ≤ L + cs - 1 := Nat.div_mul_le_self _ _
  have h3 : (i + 1) * cs = i * cs + cs := by ring
  omega

/-- The body of chunk `i`, as the range `[i·cs, chunkEnd]` cuts it, is
the `i`-th `cs`-sized slice of the resource. -/
theorem chunkBody_eq_slice (cs i : Nat) (hcs : 0 < cs) (data : List Nat)
    (hi : i * cs < data.length) :
    chunkBody data cs i = (data.drop (i * cs)).take cs := by
  unfold chunkBody rangeBytes chunkEnd
  rcases le_or_lt (i * cs + cs - 1) (data.length - 1) with h | h
  · rw [min_eq_left h]
    congr 1
    omega
  · rw [min_eq_right (le_of_lt h)]
    have h1 : data.length - 1 - i * cs + 1 = data.length - i * cs := by omega
    rw [h1]
    have hlen : (data.drop (i * cs)).length = data.length - i * cs := List.length_drop _ _
    rw [List.take_of_length_le (le_of_eq hlen),
        List.take_of_length_le (by omega : (data.drop (i * cs)).length ≤ cs)]

/-- **C4.** For every chunk size `cs > 0` (the server uses
`config.ChunkSize`) and every upstream resource, assembling the
`⌈totalSize/cs⌉` successfully downloaded chunk bodies in strict index
order `0..n-1` — whether by the chunk-file merge loop or by the in-memory
writer goroutine — reproduces the resource byte for byte. -/
theorem chunked_download_assembly_exact :
    ∀ (cs : Nat) (data : List Nat), 0 < cs →
      mergeChunks (chunkBody data cs) (numChunks data.length cs) = data
      ∧ chunkWriterLoop (chunkBody data cs) (numChunks data.length cs) = data := by
  intro cs data hcs
  have key : mergeChunks (chunkBody data cs) (numChunks data.length cs) = data := by
    unfold mergeChunks
    have hmap : (List.range (numChunks data.length cs)).map (chunkBody data cs)
        = (List.range (numChunks data.length cs)).map
            (fun i => (data.drop (i * cs)).take cs) := by
      apply List.map_congr_left
      intro i hi
      exact chunkBody_eq_slice cs i hcs data
        (chunk_start_lt_length cs i data.length hcs (List.mem_range.mp hi))
    rw [hmap]
    apply flatten_ordered_slices cs hcs
    show data.length ≤ (data.length + cs - 1) / cs * cs
    have hd := Nat.div_add_mod (data.length + cs - 1) cs
    have hm : (data.length + cs - 1) % cs < cs := Nat.mod_lt _ hcs
    have hc : cs * ((data.length + cs - 1) / cs)
        = (data.length + cs - 1) / cs * cs := Nat.mul_comm _ _
    omega
  exact ⟨key, key⟩

/-- Witness for C4: a 10-byte resource downloaded in chunks of 4 (so 3
chunks) reassembles exactly, on both designs. -/
theorem chunked_download_assembly_exact_witness :
    (0 : Nat) < 4
    ∧ mergeChunks (chunkBody [9, 8, 7, 6, 5, 4, 3, 2, 1, 0] 4) (numChunks 10 4)
        = [9, 8, 7, 6, 5, 4, 3, 2, 1, 0]
    ∧ chunkWriterLoop (chunkBody [9, 8, 7, 6, 5, 4, 3, 2, 1, 0] 4) (numChunks 10 4)
        = [9, 8, 7, 6, 5, 4, 3, 2, 1, 0] :=
  ⟨by decide,
   (chunked_download_assembly_exact 4 [9, 8, 7, 6, 5, 4, 3, 2, 1, 0] (by decide)).1,
   (chunked_download_assembly_exact 4 [9, 8, 7, 6, 5, 4, 3, 2, 1, 0] (by decide)).2⟩

/-- A 403 fetch result exits the chunk-file retry loop at once. -/
theorem chunkRetryGo_exit_403 (seq : Nat → FetchOutcome) (r k : Nat) (sl : List Nat)
    (last : Option ChunkErr) (h : seq k = .httpError 403) :
    chunkRetryGo seq (r + 1) k sl last = ⟨k + 1, sl, some (.http 403)⟩ := by
  simp [chunkRetryGo, h]

/-- A retriable failure advances the chunk-file retry loop one attempt,
recording the linear-backoff sleep. -/
theorem chunkRetryGo_step (seq : Nat → FetchOutcome) (r k : Nat) (sl : List Nat)
    (last : Option ChunkErr) (h : retriableOutcome (seq k) = true) :
    chunkRetryGo seq (r + 1) k sl last
      = chunkRetryGo seq r (k + 1) (sl ++ [RetryDelay * (k + 1)]) (errOfOutcome (seq k)) := by
  rcases ho : seq k with _ | s | _ | _ | _
  · rw [ho] at h; simp [retriableOutcome] at h
  · rw [ho] at h
    have h4 : (s == 403) = false := by
      simp [retriableOutcome] at h
      simpa using h
    simp [chunkRetryGo, ho, h4, errOfOutcome]
  · simp [chunkRetryGo, ho, errOfOutcome]
  · simp [chunkRetryGo, ho, errOfOutcome]
  · rw [ho] at h; simp [retriableOutcome] at h

/-- The chunk-file retry loop makes at most `k + r` attempts when started
at attempt `k` with `r` attempts remaining. -/
theorem chunkRetryGo_attempts_le (seq : Nat → FetchOutcome) :
    ∀ (r k : Nat) (sl : List Nat) (last : Option ChunkErr),
      (chunkRetryGo seq r k sl last).attempts ≤ k + r := by
  intro r
  induction r with
  | zero => intro k sl last; simp [chunkRetryGo]
  | succ r ih =>
    intro k sl last
    rcases ho : seq k with _ | s | _ | _ | _
    · simp [chunkRetryGo, ho]
    · simp only [chunkRetryGo, ho]
      by_cases h4 : (s == 403) = true
      · simp [h4]
      · simp only [h4, Bool.false_eq_true, if_false]
        exact le_trans (ih (k + 1) _ _) (by omega)
    · simp only [chunkRetryGo, ho]
      exact le_trans (ih (k + 1) _ _) (by omega)
    · simp only [chunkRetryGo, ho]
      exact le_trans (ih (k + 1) _ _) (by omega)
    · simp [chunkRetryGo, ho]

/-- The chunk-file loop's recorded sleeps are always an initial run of
the linear-backoff schedule. -/
theorem chunkRetryGo_sleeps_shape (seq : Nat → FetchOutcome) :
    ∀ (r k : Nat) (last : Option ChunkErr),
      ∃ m, (chunkRetryGo seq r k
              ((List.range k).map (fun i => RetryDelay * (i + 1))) last).sleeps
            = (List.range m).map (fun i => RetryDelay * (i + 1)) := by
  intro r
  induction r with
  | zero => intro k last; exact ⟨k, rfl⟩
  | succ r ih =>
    intro k last
    have harg : (List.range k).map (fun i => RetryDelay * (i + 1)) ++ [RetryDelay * (k + 1)]
        = (List.range (k + 1)).map (fun i => RetryDelay * (i + 1)) := by
      rw [List.range_succ, List.map_append]
      rfl
    rcases ho : seq k with _ | s | _ | _ | _
    · exact ⟨k, by simp [chunkRetryGo, ho]⟩
    · by_cases h4 : (s == 403) = true
      · exact ⟨k, by simp [chunkRetryGo, ho, h4]⟩
      · simp only [chunkRetryGo, ho, h4, Bool.false_eq_true, if_false]
        rw [harg]
        exact ih (k + 1) _
    · simp only [chunkRetryGo, ho]
      rw [harg]
      exact ih (k + 1) _
    · simp only [chunkRetryGo, ho]
      rw [harg]
      exact ih (k + 1) _
    · exact ⟨k, by simp [chunkRetryGo, ho]⟩

/-- A 403 fetch result exits the in-memory retry loop at once. -/
theorem memRetryGo_exit_403 (seqB : Nat → FetchResult) (r k : Nat) (sl : List Nat)
    (last : Option ChunkErr) (h : seqB k = .httpError 403) :
    memRetryGo seqB (r + 1) k sl last = ⟨k + 1, sl, some (.http 403)⟩ := by
  simp [memRetryGo, h]

/-- On its final attempt the in-memory loop exits on a retriable failure
without sleeping. -/
theorem memRetryGo_exit_last (seqB : Nat → FetchResult) (k : Nat) (sl : List Nat)
    (last : Option ChunkErr) (h : retriableResult (seqB k) = true) :
    memRetryGo seqB 1 k sl last = ⟨k + 1, sl, errOfResult (seqB k)⟩ := by
  rcases ho : seqB k with _ | s | _
  · rw [ho] at h; simp [retriableResult] at h
  · rw [ho] at h
    have h4 : (s == 403) = false := by
      simp [retriableResult] at h
      simpa using h
    simp [memRetryGo, ho, h4, errOfResult]
  · simp [memRetryGo, ho, errOfResult]

/-- Before its final attempt, a retriable failure advances the in-memory
loop one attempt, recording the linear-backoff sleep. -/
theorem memRetryGo_step (seqB : Nat → FetchResult) (r k : Nat) (sl : List Nat)
    (last : Option ChunkErr) (h : retriableResult (seqB k) = true) :
    memRetryGo seqB (r + 2) k sl last
      = memRetryGo seqB (r + 1) (k + 1)
          (sl ++ [RetryDelay * (k + 1)]) (errOfResult (seqB k)) := by
  rcases ho : seqB k with _ | s | _
  · rw [ho] at h; simp [retriableResult] at h
  · rw [ho] at h
    have h4 : (s == 403) = false := by
      simp [retriableResult] at h
      simpa using h
    simp [memRetryGo, ho, h4, errOfResult]
  · simp [memRetryGo, ho, errOfResult]

/-- The in-memory retry loop makes at most `k + r` attempts when started
at attempt `k` with `r` attempts remaining. -/
theorem memRetryGo_attempts_le (seqB : Nat → FetchResult) :
    ∀ (r k : Nat) (sl : List Nat) (last : Option ChunkErr),
      (memRetryGo seqB r k sl last).attempts ≤ k + r := by
  intro r
  induction r with
  | zero => intro k sl last; simp [memRetryGo]
  | succ r ih =>
    intro k sl last
    rcases ho : seqB k with _ | s | _
    · simp [memRetryGo, ho]
    · simp only [memRetryGo, ho]
      by_cases h4 : (s == 403) = true
      · simp [h4]
      · simp only [h4, Bool.false_eq_true, if_false]
        by_cases hr : (r == 0) = true
        · simp [hr]
        · simp only [hr, Bool.false_eq_true, if_false]
          exact le_trans (ih (k + 1) _ _) (by omega)
    · simp only [memRetryGo, ho]
      by_cases hr : (r == 0) = true
      · simp [hr]
      · simp only [hr, Bool.false_eq_true, if_false]
        exact le_trans (ih (k + 1) _ _) (by omega)

/-- The in-memory loop's sleeps are always an initial run of the
linear-backoff schedule. -/
theorem memRetryGo_sleeps_shape (seqB : Nat → FetchResult) :
    ∀ (r k : Nat) (last : Option ChunkErr),
      ∃ m, (memRetryGo seqB r k
              ((List.range k).map (fun i => RetryDelay * (i + 1))) last).sleeps
            = (List.range m).map (fun i => RetryDelay * (i + 1)) := by
  intro r
  induction r with
  | zero => intro k last; exact ⟨k, rfl⟩
  | succ r ih =>
    intro k last
    have harg : (List.range k).map (fun i => RetryDelay * (i + 1)) ++ [RetryDelay * (k + 1)]
        = (List.range (k + 1)).map (fun i => RetryDelay * (i + 1)) := by
      rw [List.range_succ, List.map_append]
      rfl
    rcases ho : seqB k with _ | s | _
    · exact ⟨k, by simp [memRetryGo, ho]⟩
    · by_cases h4 : (s == 403) = true
      · exact ⟨k, by simp [memRetryGo, ho, h4]⟩
      · by_cases hr : (r == 0) = true
        · exact ⟨k, by simp [memRetryGo, ho, h4, hr]⟩
        · simp only [memRetryGo, ho, h4, hr, Bool.false_eq_true, if_false]
          rw [harg]
          exact ih (k + 1) _
    · by_cases hr : (r == 0) = true
      · exact ⟨k, by simp [memRetryGo, ho, hr]⟩
      · simp only [memRetryGo, ho, hr, Bool.false_eq_true, if_false]
        rw [harg]
        exact ih (k + 1) _

/-- **C5.** In both downloader designs each chunk is attempted at most
`MaxRetries = 3` times and the sleeps between attempts follow the linear
backoff `RetryDelay · (attempt+1)`; an HTTP 403 on any attempt is
surfaced immediately as a terminal `HTTPError{403}` with no further
attempt and no further sleep, while any other failure is retried until
the three-attempt budget is exhausted and the last error is surfaced.
(The chunk-file loop also sleeps once after its final failed attempt;
the in-memory loop does not.) -/
theorem chunk_retry_policy :
    ∀ (seq : Nat → FetchOutcome) (seqB : Nat → FetchResult),
      (downloadChunkWithRetry seq).attempts ≤ MaxRetries
    ∧ (∃ m, (downloadChunkWithRetry seq).sleeps
          = (List.range m).map (fun i => RetryDelay * (i + 1)))
    ∧ (∀ k, k < MaxRetries → (∀ j, j < k → retriableOutcome (seq j) = true) →
        seq k = .httpError 403 →
        downloadChunkWithRetry seq
          = ⟨k + 1, (List.range k).map (fun i => RetryDelay * (i + 1)), some (.http 403)⟩)
    ∧ ((∀ j, j < MaxRetries → retriableOutcome (seq j) = true) →
        downloadChunkWithRetry seq
          = ⟨MaxRetries, (List.range MaxRetries).map (fun i => RetryDelay * (i + 1)),
             errOfOutcome (seq (MaxRetries - 1))⟩)
    ∧ (memChunkRetry seqB).attempts ≤ MaxRetries
    ∧ (∃ m, (memChunkRetry seqB).sleeps
          = (List.range m).map (fun i => RetryDelay * (i + 1)))
    ∧ (∀ k, k < MaxRetries → (∀ j, j < k → retriableResult (seqB j) = true) →
        seqB k = .httpError 403 →
        memChunkRetry seqB
          = ⟨k + 1, (List.range k).map (fun i => RetryDelay * (i + 1)), some (.http 403)⟩)
    ∧ ((∀ j, j < MaxRetries → retriableResult (seqB j) = true) →
        memChunkRetry seqB
          = ⟨MaxRetries, (List.range (MaxRetries - 1)).map (fun i => RetryDelay * (i + 1)),
             errOfResult (seqB (MaxRetries - 1))⟩) := by
  intro seq seqB
  refine ⟨?_, ?_, ?_, ?_, ?_, ?_, ?_, ?_⟩
  · exact chunkRetryGo_attempts_le seq MaxRetries 0 [] none
  · exact chunkRetryGo_sleeps_shape seq MaxRetries 0 none
  · intro k hk hpre h403
    show chunkRetryGo seq 3 0 [] none = _
    have hk3 : k < 3 := hk
    interval_cases k
    · simpa using chunkRetryGo_exit_403 seq 2 0 [] none h403
    · rw [show ([] : List Nat) = (List.range 0).map (fun i => RetryDelay * (i + 1)) from rfl,
          chunkRetryGo_step seq 2 0 _ none (hpre 0 (by omega))]
      simpa using chunkRetryGo_exit_403 seq 1 1 _ _ h403
    · rw [show ([] : List Nat) = (List.range 0).map (fun i => RetryDelay * (i + 1)) from rfl,
          chunkRetryGo_step seq 2 0 _ none (hpre 0 (by omega)),
          chunkRetryGo_step seq 1 1 _ _ (hpre 1 (by omega))]
      simpa [List.range_succ] using chunkRetryGo_exit_403 seq 0 2 _ _ h403
  · intro hall
    show chunkRetryGo seq 3 0 [] none = _
    rw [show ([] : List Nat) = (List.range 0).map (fun i => RetryDelay * (i + 1)) from rfl,
        chunkRetryGo_step seq 2 0 _ none (hall 0 (by decide)),
        chunkRetryGo_step seq 1 1 _ _ (hall 1 (by decide)),
        chunkRetryGo_step seq 0 2 _ _ (hall 2 (by decide))]
    simp [chunkRetryGo, List.range_succ, MaxRetries]
  · exact memRetryGo_attempts_le seqB MaxRetries 0 [] none
  · exact memRetryGo_sleeps_shape seqB MaxRetries 0 none
  · intro k hk hpre h403
    show memRetryGo seqB 3 0 [] none = _
    have hk3 : k < 3 := hk
    interval_cases k
    · simpa using memRetryGo_exit_403 seqB 2 0 [] none h403
    · rw [show ([] : List Nat) = (List.range 0).map (fun i => RetryDelay * (i + 1)) from rfl,
          memRetryGo_step seqB 1 0 _ none (hpre 0 (by omega))]
      simpa using memRetryGo_exit_403 seqB 1 1 _ _ h403
    · rw [show ([] : List Nat) = (List.range 0).map (fun i => RetryDelay * (i + 1)) from rfl,
          memRetryGo_step seqB 1 0 _ none (hpre 0 (by omega)),
          memRetryGo_step seqB 0 1 _ _ (hpre 1 (by omega))]
      simpa [List.range_succ] using memRetryGo_exit_403 seqB 0 2 _ _ h403
  · intro hall
    show memRetryGo seqB 3 0 [] none = _
    rw [show ([] : List Nat) = (List.range 0).map (fun i => RetryDelay * (i + 1)) from rfl,
        memRetryGo_step seqB 1 0 _ none (hall 0 (by decide)),
        memRetryGo_step seqB 0 1 _ _ (hall 1 (by decide))]
    rw [memRetryGo_exit_last seqB 2 _ _ (hall 2 (by decide))]
    simp [List.range_succ, MaxRetries]

/-- Witness for C5: a first-attempt 403 ends the chunk-file loop after
one attempt with no sleep and a terminal HTTP 403; persistent transport
errors exhaust the in-memory loop's three attempts with sleeps of 100 ms
and 200 ms. -/
theorem chunk_retry_policy_witness :
    downloadChunkWithRetry (fun _ => .httpError 403) = ⟨1, [], some (.http 403)⟩
    ∧ memChunkRetry (fun _ => .transportError) = ⟨3, [100, 200], some .transport⟩ := by
  constructor
  · have h := (chunk_retry_policy (fun _ => .httpError 403) (fun _ => .transportError)).2.2.1
      0 (by decide) (fun j hj => absurd hj (by omega)) rfl
    rw [h]
    decide
  · have h := (chunk_retry_policy (fun _ => .httpError 403) (fun _ => .transportError)).2.2.2.2.2.2.2
      (fun j _ => rfl)
    rw [h]
    decide

/-- `GetFileSize` is positive exactly when the path stats as a non-empty
entry. -/
theorem getFileSize_pos_iff (fs : FS) (p : String) :
    (0 < GetFileSize fs p) ↔ fileNonEmpty fs p = true := by
  rcases h : fs.stat p with _ | info <;> simp [GetFileSize, fileNonEmpty, h]

/-- The estimator's chunk-directory fold equals the (cast) sum of the
regular-file sizes. -/
theorem chunkDirTotal_eq_cast (l : List DirEntry) :
    chunkDirTotal l = (((l.filter (fun e => !e.isDir)).map (fun e => e.size)).sum : Int) := by
  have key : ∀ (l : List DirEntry) (acc : Int),
      l.foldl (fun total e => if e.isDir then total else total + (e.size : Int)) acc
        = acc + (((l.filter (fun e => !e.isDir)).map (fun e => e.size)).sum : Int) := by
    intro l
    induction l with
    | nil => intro acc; simp
    | cons hd tl ih =>
      intro acc
      by_cases hdir : hd.isDir
      · simp [hdir, List.filter_cons, ih]
      · simp [hdir, List.filter_cons, ih]
        ring
  simpa [chunkDirTotal] using key l 0

/-- A chunk-directory total is never negative. -/
theorem chunkDirTotal_nonneg (l : List DirEntry) : 0 ≤ chunkDirTotal l := by
  rw [chunkDirTotal_eq_cast]
  apply List.sum_nonneg
  intro x hx
  simp only [List.mem_map] at hx
  obtain ⟨e, _, rfl⟩ := hx
  exact Int.natCast_nonneg _

/-- The code's per-track downloaded count is exactly the (amended) spec
description. -/
theorem getDownloadedSize_eq_spec (fs : FS) (jobDir name : String) (size : Int) :
    getDownloadedSize fs jobDir name size = specTrackDownloaded fs jobDir name size := by
  unfold getDownloadedSize specTrackDownloaded
  by_cases h1 : fileNonEmpty fs (jobDir ++ "/" ++ name) = true
  · have hpos : 0 < GetFileSize fs (jobDir ++ "/" ++ name) := (getFileSize_pos_iff _ _).mpr h1
    simp [h1, hpos]
  · have hnot : ¬ 0 < GetFileSize fs (jobDir ++ "/" ++ name) :=
      fun hc => h1 ((getFileSize_pos_iff _ _).mp hc)
    simp only [h1, hnot, if_false, Bool.false_eq_true, gt_iff_lt]
    rcases h2 : fs.stat (jobDir ++ "/" ++ name ++ ".chunks") with _ | info
    · simp only [dirExists, h2, Bool.false_eq_true, if_false]
      by_cases h3 : fileNonEmpty fs (jobDir ++ "/" ++ name ++ ".tmp") = true
      · have hpos3 : 0 < GetFileSize fs (jobDir ++ "/" ++ name ++ ".tmp") :=
          (getFileSize_pos_iff _ _).mpr h3
        simp [h3, hpos3]
      · have hnot3 : ¬ 0 < GetFileSize fs (jobDir ++ "/" ++ name ++ ".tmp") :=
          fun hc => h3 ((getFileSize_pos_iff _ _).mp hc)
        simp [h3, hnot3]
    · simp only [dirExists, h2]
      by_cases hdir : info.isDir
      · simp only [hdir, if_true]
        rw [chunkDirTotal_eq_cast]
        simp [sumFileSizes, Nat.cast_list_sum, List.map_map, Function.comp_def]
      · simp only [hdir, Bool.false_eq_true, if_false]
        by_cases h3 : fileNonEmpty fs (jobDir ++ "/" ++ name ++ ".tmp") = true
        · have hpos3 : 0 < GetFileSize fs (jobDir ++ "/" ++ name ++ ".tmp") :=
            (getFileSize_pos_iff _ _).mpr h3
          simp [h3, hpos3]
        · have hnot3 : ¬ 0 < GetFileSize fs (jobDir ++ "/" ++ name ++ ".tmp") :=
            fun hc => h3 ((getFileSize_pos_iff _ _).mp hc)
          simp [h3, hnot3]

/-- The downloaded count is non-negative whenever the advertised size
is. -/
theorem specTrackDownloaded_nonneg (fs : FS) (jobDir name : String) (size : Int)
    (h : 0 ≤ size) : 0 ≤ specTrackDownloaded fs jobDir name size := by
  unfold specTrackDownloaded
  split
  · exact h
  · split
    · exact Int.natCast_nonneg _
    · split
      · exact h
      · exact le_refl 0

/-- A positive rational rounds to a non-negative significand. -/
theorem roundPosDyadic_m_nonneg (n d : Nat) : 0 ≤ (roundPosDyadic n d).m := by
  unfold roundPosDyadic
  dsimp only
  exact Int.natCast_nonneg _

/-- Rounding a non-negative rational keeps the significand
non-negative. -/
theorem roundRatDyadic_m_nonneg (num : Int) (den : Nat) (h : 0 ≤ num) :
    0 ≤ (roundRatDyadic num den).m := by
  unfold roundRatDyadic
  split
  · exact le_refl 0
  · split
    · exact roundPosDyadic_m_nonneg _ _
    · rename_i h1 h2
      omega

/-- `floatOfInt` of a non-negative integer has a non-negative
significand. -/
theorem floatOfInt_m_nonneg (x : Int) (h : 0 ≤ x) : 0 ≤ (floatOfInt x).m :=
  roundRatDyadic_m_nonneg x 1 h

/-- Multiplying floats with non-negative significands keeps the
significand non-negative. -/
theorem fmul_m_nonneg (a b : Dyadic) (ha : 0 ≤ a.m) (hb : 0 ≤ b.m) :
    0 ≤ (fmul a b).m := by
  unfold fmul
  dsimp only
  split
  · exact roundRatDyadic_m_nonneg _ _
      (mul_nonneg (mul_nonneg ha hb) (Int.natCast_nonneg _))
  · exact roundRatDyadic_m_nonneg _ _ (mul_nonneg ha hb)

/-- Adding floats with non-negative significands keeps the significand
non-negative. -/
theorem fadd_m_nonneg (a b : Dyadic) (ha : 0 ≤ a.m) (hb : 0 ≤ b.m) :
    0 ≤ (fadd a b).m := by
  unfold fadd
  dsimp only
  have hsm : 0 ≤ a.m * ((2 ^ (a.e - min a.e b.e).toNat : Nat) : Int)
      + b.m * ((2 ^ (b.e - min a.e b.e).toNat : Nat) : Int) :=
    add_nonneg (mul_nonneg ha (Int.natCast_nonneg _))
      (mul_nonneg hb (Int.natCast_nonneg _))
  split
  · exact roundRatDyadic_m_nonneg _ _ (mul_nonneg hsm (Int.natCast_nonneg _))
  · exact roundRatDyadic_m_nonneg _ _ hsm

/-- Dividing floats with non-negative significands keeps the significand
non-negative. -/
theorem fdiv_m_nonneg (a b : Dyadic) (ha : 0 ≤ a.m) (hb : 0 ≤ b.m) :
    0 ≤ (fdiv a b).m := by
  unfold fdiv
  dsimp only
  by_cases he : a.e - b.e ≥ 0
  · simp only [if_pos he]
    rw [if_pos hb]
    exact roundRatDyadic_m_nonneg _ _ (mul_nonneg ha (Int.natCast_nonneg _))
  · simp only [if_neg he]
    rw [if_pos (mul_nonneg hb (Int.natCast_nonneg _))]
    exact roundRatDyadic_m_nonneg _ _ ha

/-- Truncating a float with a non-negative significand is
non-negative. -/
theorem floatTrunc_nonneg (a : Dyadic) (h : 0 ≤ a.m) : 0 ≤ floatTrunc a := by
  unfold floatTrunc
  split
  · exact mul_nonneg h (Int.natCast_nonneg _)
  · exact Int.natCast_nonneg _

/-- The binary64 percentage of non-negative byte counts is
non-negative. -/
theorem floatSharePct_nonneg (d s : Int) (hd : 0 ≤ d) (hs : 0 ≤ s) :
    0 ≤ floatSharePct d s := by
  unfold floatSharePct
  apply floatTrunc_nonneg
  apply fmul_m_nonneg
  · exact fdiv_m_nonneg _ _ (floatOfInt_m_nonneg _ hd) (floatOfInt_m_nonneg _ hs)
  · exact floatOfInt_m_nonneg _ (by norm_num)

/-- The code's clamped per-track percentage is exactly the spec's
`[0, 100]`-clamped percentage. -/
theorem trackPercent_clamped_eq_spec (fs : FS) (jobDir name : String) (size : Int) :
    min (trackPercent (getDownloadedSize fs jobDir name size) size) 100
      = specTrackPct fs jobDir name size := by
  unfold trackPercent specTrackPct
  by_cases hs : size > 0
  · have hns : ¬ size ≤ 0 := by omega
    rw [if_pos hs, if_neg hns, getDownloadedSize_eq_spec]
    have hd0 : 0 ≤ specTrackDownloaded fs jobDir name size :=
      specTrackDownloaded_nonneg fs jobDir name size (by omega)
    have hq : 0 ≤ floatSharePct (specTrackDownloaded fs jobDir name size) size :=
      floatSharePct_nonneg _ _ hd0 (by omega)
    rw [max_eq_right hq, min_comm]
  · have hns : size ≤ 0 := by omega
    rw [if_neg hs, if_pos hns]
    simp

/-- The spec percentage really lies in `[0, 100]`. -/
theorem specTrackPct_mem_range (fs : FS) (jobDir name : String) (size : Int) :
    0 ≤ specTrackPct fs jobDir name size ∧ specTrackPct fs jobDir name size ≤ 100 := by
  unfold specTrackPct
  split
  · exact ⟨le_refl 0, by norm_num⟩
  · exact ⟨le_min (by norm_num) (le_max_left _ _), min_le_left _ _⟩

set_option maxRecDepth 100000 in
/-- **C7, counterexample.**  Two parts of the claim fail on the code.
First, the claim says a track's downloaded count is the expected size `S`
once `<name>.tmp` exists (with no final file and no chunks directory):
with an existing but *empty* `audio.m4a.tmp` the code reports 0
downloaded bytes — not `S = 100` — because it tests
`GetFileSize(tmp) > 0`, not existence.  Second, the claim says the
per-track percentage is the downloaded share of `S` and the total is
`0.7·video + 0.3·audio`: the code computes both in `float64`, and on a
track with 29 of 100 bytes the code's percentage is 28 where the exact
share is 29, while on a video job with both tracks at 3% the code's total
is `int(3·0.7 + 3·0.3) = 2` where the exact weighted sum is 3. -/
theorem progress_empty_tmp_and_float_counterexample :
    (fsTmpEmpty.stat "./storage/jobA/audio.m4a.tmp").isSome = true
    ∧ fsTmpEmpty.stat "./storage/jobA/audio.m4a" = none
    ∧ fsTmpEmpty.stat "./storage/jobA/audio.m4a.chunks" = none
    ∧ getDownloadedSize fsTmpEmpty "./storage/jobA" "audio.m4a" 100 = 0
    ∧ CalculateProgress fsTmpEmpty metaAudioPending = (0, some ⟨0, 0⟩)
    ∧ trackPercent 29 100 = 28
    ∧ (29 * 100 : Int) / 100 = 29
    ∧ CalculateProgress fsChunks3 metaVideoPending3 = (2, some ⟨3, 3⟩)
    ∧ (7 * 3 + 3 * 3 : Int) / 10 = 3 := by
  decide

/-- **C7, amended.** `CalculateProgress` returns 100 with no detail for a
finished job (`done`/`ready`) and 0 with no detail for an errored job;
for a pending job each track's downloaded count follows the
final/chunks/tmp priority with the amendment that `<name>.tmp` must be
*non-empty* to count as `S`; per-track percentages are the binary64
computation `int(float64(downloaded)/float64(S)*100)` clamped to
`[0, 100]` (second amendment: this deviates from the exact share on some
inputs), and the total is the binary64
`int(float64(video)*0.7 + float64(audio)*0.3)` — clamped to at most
100 — for video+audio jobs and the audio percentage for audio-only
jobs. -/
theorem calculateProgress_matches_amended_description :
    ∀ (fs : FS) (meta : Meta),
      ((meta.status = "done" ∨ meta.status = "ready") →
        CalculateProgress fs meta = (100, none))
    ∧ (meta.status = "error" → CalculateProgress fs meta = (0, none))
    ∧ (meta.status = "pending" → ∀ v a, meta.outputType = "video" →
        meta.files.video = some v → meta.files.audio = some a →
        CalculateProgress fs meta
          = (min (weightedProgress (specTrackPct fs (GetJobDir meta.id) v.name v.size)
                    (specTrackPct fs (GetJobDir meta.id) a.name a.size)) 100,
             some ⟨specTrackPct fs (GetJobDir meta.id) v.name v.size,
                   specTrackPct fs (GetJobDir meta.id) a.name a.size⟩))
    ∧ (meta.status = "pending" → ∀ a, meta.outputType = "audio" →
        meta.files.audio = some a →
        CalculateProgress fs meta
          = (specTrackPct fs (GetJobDir meta.id) a.name a.size,
             some ⟨0, specTrackPct fs (GetJobDir meta.id) a.name a.size⟩))
    ∧ (∀ (jobDir name : String) (size : Int),
        0 ≤ specTrackPct fs jobDir name size
        ∧ specTrackPct fs jobDir name size ≤ 100) := by
  intro fs meta
  have hs1 : ¬(("pending" : String) = "done" ∨ ("pending" : String) = "ready") := by decide
  have hs2 : ("pending" : String) ≠ "error" := by decide
  have hs3 : ("pending" : String) ≠ "processing" := by decide
  have hs4 : (("audio" : String) == "video") = false := by decide
  refine ⟨?_, ?_, ?_, ?_, ?_⟩
  · rintro (h | h) <;> simp [CalculateProgress, h]
  · intro h
    simp [CalculateProgress, h]
  · intro h v a hout hv ha
    simp only [CalculateProgress, h, hout, hv, ha]
    norm_num [hs1, hs2, hs3]
    rw [trackPercent_clamped_eq_spec, trackPercent_clamped_eq_spec]
    exact ⟨rfl, rfl, rfl⟩
  · intro h a hout ha
    rcases hv : meta.files.video with _ | v2 <;>
      (simp only [CalculateProgress, h, hout, hv, ha]
       norm_num [hs1, hs2, hs3, hs4]
       rw [trackPercent_clamped_eq_spec])
  · intro jobDir name size
    exact specTrackPct_mem_range fs jobDir name size

set_option maxRecDepth 100000 in
/-- Witness for C7: a finished job reads 100 with no detail; the pending
audio job over the empty-tmp filesystem evaluates to 0% through the
amended description; and the 3%/3% video job evaluates through it to the
binary64 total 2. -/
theorem calculateProgress_matches_amended_description_witness :
    CalculateProgress fsTmpEmpty metaDoneJob = (100, none)
    ∧ CalculateProgress fsTmpEmpty metaAudioPending = (0, some ⟨0, 0⟩)
    ∧ CalculateProgress fsChunks3 metaVideoPending3 = (2, some ⟨3, 3⟩) := by
  refine ⟨?_, ?_, ?_⟩
  · exact (calculateProgress_matches_amended_description fsTmpEmpty metaDoneJob).1
      (Or.inl rfl)
  · have h := (calculateProgress_matches_amended_description fsTmpEmpty
      metaAudioPending).2.2.2.1 rfl ⟨"audio.m4a", 100⟩ rfl rfl
    rw [h]
    decide
  · have h := (calculateProgress_matches_amended_description fsChunks3
      metaVideoPending3).2.2.1 rfl ⟨"video.mp4", 100⟩ ⟨"audio.m4a", 100⟩ rfl rfl rfl
    rw [h]
    decide

set_option maxRecDepth 100000 in
/-- **C10, counterexample.** The claim says a pending `video` job returns
0 with no detail when a required descriptor is missing.  With the video
descriptor absent and the audio descriptor present (audio fully
downloaded), the code instead falls into the audio-only branch and
returns 100% with a detail record. -/
theorem videoJob_without_videoDesc_reports_audio_progress :
    CalculateProgress fsAudioDone metaVideoNoVideoDesc = (100, some ⟨0, 100⟩)
    ∧ CalculateProgress fsAudioDone metaVideoNoVideoDesc
        ≠ ((0 : Int), (none : Option ProgressDetail)) := by
  decide

/-- **C10, amended.** `CalculateProgress` is total on every `Meta`: a
pending job with no audio descriptor yields 0 with no detail (whatever
the video descriptor); a pending `video` job with only the audio
descriptor is computed as audio-only (with a detail record) rather than
returning 0 with no detail; a video descriptor advertising size 0
contributes 0% to the detail; and a track whose advertised size is 0
yields percentage 0 instead of a division by zero. -/
theorem calculateProgress_guards_missing_and_zero_descriptors :
    ∀ (fs : FS) (meta : Meta) (v a : FileInfo),
      (meta.status = "pending" → meta.files.audio = none →
        CalculateProgress fs meta = (0, none))
    ∧ (meta.status = "pending" → meta.outputType = "video" →
        meta.files.video = none → meta.files.audio = some a →
        CalculateProgress fs meta
          = (min (trackPercent (getDownloadedSize fs (GetJobDir meta.id) a.name a.size)
                a.size) 100,
             some ⟨0, min (trackPercent (getDownloadedSize fs (GetJobDir meta.id)
                a.name a.size) a.size) 100⟩))
    ∧ (meta.status = "pending" → meta.outputType = "video" →
        meta.files.video = some v → meta.files.audio = some a → v.size = 0 →
        (CalculateProgress fs meta).2
          = some ⟨0, min (trackPercent (getDownloadedSize fs (GetJobDir meta.id)
                a.name a.size) a.size) 100⟩)
    ∧ (∀ d : Int, trackPercent d 0 = 0) := by
  intro fs meta v a
  have hs1 : ¬(("pending" : String) = "done" ∨ ("pending" : String) = "ready") := by decide
  have hs2 : ("pending" : String) ≠ "error" := by decide
  have hs3 : ("pending" : String) ≠ "processing" := by decide
  refine ⟨?_, ?_, ?_, ?_⟩
  · intro h ha
    rcases hv : meta.files.video with _ | v2 <;>
      simp [CalculateProgress, h, ha, hv, hs1, hs2, hs3]
  · intro h hout hv ha
    simp only [CalculateProgress, h, hout, hv, ha]
    norm_num [hs1, hs2, hs3]
  · intro h hout hv ha hsz
    simp only [CalculateProgress, h, hout, hv, ha]
    norm_num [hs1, hs2, hs3]
    simp [trackPercent, hsz]
  · intro d
    simp [trackPercent]

set_option maxRecDepth 100000 in
/-- Witness for C10: the pending no-descriptor job reads `(0, none)`, and
the video job with a missing video descriptor evaluates to 100% audio
progress through the theorem. -/
theorem calculateProgress_guards_missing_and_zero_descriptors_witness :
    CalculateProgress fsAudioDone metaNoFiles = (0, none)
    ∧ CalculateProgress fsAudioDone metaVideoNoVideoDesc = (100, some ⟨0, 100⟩) := by
  constructor
  · exact (calculateProgress_guards_missing_and_zero_descriptors fsAudioDone metaNoFiles
      ⟨"v", 0⟩ ⟨"a", 0⟩).1 rfl rfl
  · have h := (calculateProgress_guards_missing_and_zero_descriptors fsAudioDone
      metaVideoNoVideoDesc ⟨"v", 0⟩ ⟨"audio.m4a", 100⟩).2.1 rfl rfl rfl rfl
    rw [h]
    decide

end YtDl
